import Mathlib

/-!
Verification development for the zwave-js log-analyzer repository.

This file gives a shallow embedding, in Lean 4, of the log transformation
pipeline (src/lib/log-processor/index.ts) and of the query/index engine
(src/lib/log-query-engine.ts), together with theorems settling the frozen
claims about them.

Modelling conventions:
* JavaScript strings are modelled by Lean `String` (sequences of Unicode
  scalar values).  All strings occurring in the repository's log grammar are
  BMP text, where JS UTF-16 code-unit indexing coincides with scalar-value
  indexing, so `slice`/`length` are modelled by scalar-value `drop`/`take`/
  `length`.  `toLowerCase` is modelled by ASCII lowercasing; where UTF-16
  code-unit order matters (relational string comparison) it is modelled
  exactly via code-unit sequences.
* JavaScript numbers are modelled by `ℚ` (exact rationals); `NaN` is
  modelled by `Option ℚ` (`none` = NaN) in the statistics code where the
  source can produce it via `parseInt` of a malformed string.
* JS objects built with `Object.fromEntries` / object literals are modelled
  by insertion-ordered association lists with the same key-deduplication
  behaviour (first key position wins, last value wins).
* `new Date(ts).getTime()` on the fixed `YYYY-MM-DD HH:MM:SS.mmm` stamps is
  modelled by an exact civil-calendar millisecond count (V8 parses these
  stamps as local time; the engine only ever uses differences and
  comparisons of stamps, which are invariant under the fixed offset).
-/

namespace ZWLog

/-! ## Generic JS-style string helpers -/

/-- One decimal digit to its value. -/
def digitVal (c : Char) : Nat := c.toNat - 48

/-- Value of a list of decimal digits (most significant first). -/
def digitsVal (cs : List Char) : Nat :=
  cs.foldl (fun acc c => acc * 10 + digitVal c) 0

/-- JS `s.slice(n)`: drop the first `n` units. -/
def jsDrop (s : String) (n : Nat) : String := String.mk (s.toList.drop n)

/-- JS `s.slice(0, n)`: take the first `n` units. -/
def jsTake (s : String) (n : Nat) : String := String.mk (s.toList.take n)

/-- JS `s.slice(0, -n)`: drop the last `n` units. -/
def jsDropEnd (s : String) (n : Nat) : String :=
  String.mk (s.toList.take (s.toList.length - n))

/-- JS `s.startsWith(p)`.  (Kernel-reducible replacement for
`String.startsWith`, which works on byte positions.) -/
def jsStartsWith (s p : String) : Bool := p.toList.isPrefixOf s.toList

/-- JS `s.endsWith(p)`. -/
def jsEndsWith (s p : String) : Bool := p.toList.isSuffixOf s.toList

/-- JS `s.trim()` (whitespace from both ends). -/
def jsTrim (s : String) : String :=
  String.mk (((s.toList.dropWhile Char.isWhitespace).reverse.dropWhile
    Char.isWhitespace).reverse)

/-- JS `s.split(sep)` for a one-character separator (the source only
splits on `"\n"` and `"."`). -/
def jsSplit (s : String) (sep : Char) : List String :=
  (s.toList.splitOn sep).map String.mk

/-- JS `array.join(sep)` on strings. -/
def jsJoin (sep : String) (l : List String) : String :=
  String.mk (List.intercalate sep.toList (l.map String.toList))

/-- Substring scan: does `sub` occur (contiguously) in the haystack? -/
def listContainsSub (sub : List Char) : List Char → Bool
  | [] => sub.isEmpty
  | c :: t => sub.isPrefixOf (c :: t) || listContainsSub sub t

/-- JS `a.includes(b)` on strings: substring containment. -/
def jsIncludes (s sub : String) : Bool := listContainsSub (sub.toList) (s.toList)

/-- JS `String.prototype.toLowerCase`, restricted to ASCII case mapping. -/
def jsToLower (s : String) : String := String.mk (s.toList.map Char.toLower)

/-! ## The timestamp pattern

`TIMESTAMP_REGEX = /^\d{4}-\d{2}-\d{2} \d{2}:\d{2}:\d{2}\.\d{3}/`
(log-processor/index.ts line 9). -/

/-- Whether a line starts with the fixed 23-character date-time stamp,
i.e. whether `TIMESTAMP_REGEX` matches it. -/
def timestampTest (s : String) : Bool :=
  match s.toList with
  | y1 :: y2 :: y3 :: y4 :: '-' :: o1 :: o2 :: '-' :: d1 :: d2 :: ' ' ::
    h1 :: h2 :: ':' :: n1 :: n2 :: ':' :: s1 :: s2 :: '.' :: f1 :: f2 :: f3 :: _ =>
      y1.isDigit && y2.isDigit && y3.isDigit && y4.isDigit &&
      o1.isDigit && o2.isDigit && d1.isDigit && d2.isDigit &&
      h1.isDigit && h2.isDigit && n1.isDigit && n2.isDigit &&
      s1.isDigit && s2.isDigit && f1.isDigit && f2.isDigit && f3.isDigit
  | _ => false

/-- Civil-calendar day count from 1970-01-01 (standard `days_from_civil`
algorithm); all inputs in the log are in the positive era. -/
def daysFromCivil (y m d : Int) : Int :=
  let yy : Int := if m ≤ 2 then y - 1 else y
  let era : Int := (if 0 ≤ yy then yy else yy - 399) / 400
  let yoe : Int := yy - era * 400
  let mp : Int := if 2 < m then m - 3 else m + 9
  let doy : Int := (153 * mp + 2) / 5 + d - 1
  let doe : Int := yoe * 365 + yoe / 4 - yoe / 100 + doy
  era * 146097 + doe - 719468

/-- `new Date(timestamp).getTime()` for the fixed-width stamps produced by
the pipeline (`parseTimestamp` in both source files).  Stamps that do not
have the fixed shape are mapped to `0` (the source would yield `NaN`; no
call site in the modelled claims reaches that case). -/
def parseTimestampMs (ts : String) : Int :=
  match ts.toList with
  | y1 :: y2 :: y3 :: y4 :: '-' :: o1 :: o2 :: '-' :: d1 :: d2 :: ' ' ::
    h1 :: h2 :: ':' :: n1 :: n2 :: ':' :: s1 :: s2 :: '.' :: f1 :: f2 :: f3 :: _ =>
      let y : Int := digitsVal [y1, y2, y3, y4]
      let mo : Int := digitsVal [o1, o2]
      let d : Int := digitsVal [d1, d2]
      let h : Int := digitsVal [h1, h2]
      let mi : Int := digitsVal [n1, n2]
      let s : Int := digitsVal [s1, s2]
      let f : Int := digitsVal [f1, f2, f3]
      ((((daysFromCivil y mo d) * 24 + h) * 60 + mi) * 60 + s) * 1000 + f
  | _ => 0

/-! ## Attribute values

`tryParseValue` (log-processor/index.ts lines 11-21) opportunistically types
raw attribute strings. -/

/-- A `string | number | boolean` JS value. -/
inductive AttrValue where
  | str (s : String)
  | num (q : ℚ)
  | bool (b : Bool)
  deriving DecidableEq, Repr

/-- JS truthiness of a `string | number | boolean` value. -/
def AttrValue.truthy : AttrValue → Bool
  | .str s => s ≠ ""
  | .num q => q ≠ 0
  | .bool b => b

/-- Whether a string consists of one or more decimal digits (`/^\d+$/`). -/
def allDigits (s : String) : Bool :=
  s.toList ≠ [] && s.toList.all Char.isDigit

/-- Match of `/^\d+\.\d+$/`: split into integer and fractional digit runs. -/
def matchFloatShape (s : String) : Option (List Char × List Char) :=
  let cs := s.toList
  let intPart := cs.takeWhile Char.isDigit
  match cs.drop intPart.length with
  | '.' :: rest =>
      if intPart ≠ [] && rest ≠ [] && rest.all Char.isDigit then
        some (intPart, rest)
      else none
  | _ => none

/-- `tryParseValue`: pure-digit strings become integers, digit-dot-digit
strings floats, `true`/`false` booleans, anything else stays a string. -/
def tryParseValue (rawValue : String) : AttrValue :=
  if allDigits rawValue then .num (digitsVal rawValue.toList)
  else
    match matchFloatShape rawValue with
    | some (ip, fp) => .num ((digitsVal ip : ℚ) + (digitsVal fp : ℚ) / (10 ^ fp.length))
    | none =>
        if rawValue = "true" || rawValue = "false" then .bool (rawValue = "true")
        else .str rawValue

/-! ## Ordered JS objects -/

/-- Insert one key/value pair into an insertion-ordered object, JS style:
an existing key keeps its position but gets the new value. -/
def objInsert (kvs : List (String × AttrValue)) (k : String) (v : AttrValue) :
    List (String × AttrValue) :=
  if kvs.any (fun p => p.1 = k) then
    kvs.map (fun p => if p.1 = k then (k, v) else p)
  else kvs ++ [(k, v)]

/-- `Object.fromEntries`: build an object from pairs, later values winning. -/
def jsFromEntries (l : List (String × AttrValue)) : List (String × AttrValue) :=
  l.foldl (fun acc p => objInsert acc p.1 p.2) []

/-- Property read on an object (`obj[k]`); `none` is JS `undefined`. -/
def jsGet (kvs : List (String × AttrValue)) (k : String) : Option AttrValue :=
  (kvs.find? (fun p => p.1 = k)).map Prod.snd

/-- Property delete on an object (`delete obj[k]`). -/
def jsDelete (kvs : List (String × AttrValue)) (k : String) :
    List (String × AttrValue) :=
  kvs.filter (fun p => p.1 ≠ k)

/-! ## Pipeline data model (src/lib/types.ts, in the sources as
`unnamed/part_007` lines 1075-1105) -/

/-- `LogInfoPayload`: one level of a protocol frame. -/
inductive LogInfoPayload where
  | mk (message : String) (attributes : Option (List (String × AttrValue)))
      (nested : Option LogInfoPayload)

/-- Decidable equality for payload trees (the nested `Option` defeats the
deriving handler, so it is spelled out). -/
def LogInfoPayload.deq : (a b : LogInfoPayload) → Decidable (a = b)
  | .mk m1 a1 n1, .mk m2 a2 n2 =>
    have hn : Decidable (n1 = n2) :=
      match n1, n2 with
      | Option.none, Option.none => isTrue rfl
      | Option.some _, Option.none => isFalse (by simp)
      | Option.none, Option.some _ => isFalse (by simp)
      | Option.some x, Option.some y =>
        match LogInfoPayload.deq x y with
        | isTrue h => isTrue (by rw [h])
        | isFalse h => isFalse (by simpa using h)
    match decEq m1 m2, decEq a1 a2, hn with
    | isTrue h1, isTrue h2, isTrue h3 => isTrue (by rw [h1, h2, h3])
    | isFalse h1, _, _ => isFalse (by intro he; cases he; exact h1 rfl)
    | isTrue _, isFalse h2, _ => isFalse (by intro he; cases he; exact h2 rfl)
    | isTrue _, isTrue _, isFalse h3 => isFalse (by intro he; cases he; exact h3 rfl)

instance : DecidableEq LogInfoPayload := LogInfoPayload.deq

def LogInfoPayload.message : LogInfoPayload → String
  | .mk m _ _ => m

def LogInfoPayload.attributes : LogInfoPayload → Option (List (String × AttrValue))
  | .mk _ a _ => a

def LogInfoPayload.nested : LogInfoPayload → Option LogInfoPayload
  | .mk _ _ n => n

/-- The `message` field of an `UnformattedLogInfo`: a plain string before
nested-structure parsing, possibly a `LogInfoPayload` afterwards. -/
inductive MessageBody where
  | str (s : String)
  | payload (p : LogInfoPayload)
  deriving DecidableEq

/-- Direction indicator of a log record. -/
inductive Direction where
  | inbound
  | outbound
  | none
  deriving DecidableEq

/-- `UnformattedLogInfo`: the intermediate structured record.  Optional
fields model JS property absence. -/
structure UnformattedLogInfo where
  timestamp : String
  label : String
  direction : Direction
  message : MessageBody
  primaryTags : Option (List String)
  secondaryTags : Option String
  deriving DecidableEq

/-! ## Stage 1: `CompleteLogEntries` (log-processor/index.ts lines 24-89)

The transform stream is modelled as an explicit state (buffered lines plus
the unterminated receive buffer), a `transform` step and a `flush` step,
each returning the list of entries enqueued. -/

structure CLEState where
  lines : List String
  receiveBuffer : String
  deriving DecidableEq

/-- Indices of all buffered lines that start with a timestamp. -/
def startIndizes (lines : List String) : List Nat :=
  (lines.enum.filterMap fun p => if timestampTest p.2 then some p.1 else none)

/-- Structural-recursion characterisation of `startIndizes`, used by the
proofs (`startIndizes_eq_spec` shows the two agree). -/
def startsSpec : List String → List Nat
  | [] => []
  | a :: t =>
      (if timestampTest a then [0] else []) ++
        (startsSpec t).map (fun i => i + 1)

/-- `enqueueCompleteEntries`: emit every slice between two consecutive
start indices and drop the consumed lines.  Returns (emitted entries,
remaining lines). -/
def enqueueCompleteEntries (lines : List String) : List String × List String :=
  let idxs := startIndizes lines
  if idxs.length ≤ 1 then ([], lines)
  else
    let entries := (idxs.zip idxs.tail).map fun p =>
      jsJoin "\n" ((lines.drop p.1).take (p.2 - p.1))
    (entries, lines.drop (idxs.getLast!))

/-- The `transform` callback: append the chunk to the receive buffer, move
every complete line into the line buffer, then emit complete entries. -/
def cleTransform (st : CLEState) (chunk : String) : CLEState × List String :=
  let rb := st.receiveBuffer ++ chunk
  let newLines := jsSplit rb '\n'
  let st1 : CLEState :=
    if 1 < newLines.length then ⟨st.lines ++ newLines.dropLast, newLines.getLast!⟩
    else ⟨st.lines, rb⟩
  let (out, rest) := enqueueCompleteEntries st1.lines
  (⟨rest, st1.receiveBuffer⟩, out)

/-- The `flush` callback: emit any still-complete entries, then the rest of
the lines (plus the receive buffer) as a single final entry. -/
def cleFlush (st : CLEState) : List String :=
  let (out, rest) := enqueueCompleteEntries st.lines
  let rest := if st.receiveBuffer.length > 0 then rest ++ [st.receiveBuffer] else rest
  out ++ (if 0 < rest.length then [jsJoin "\n" rest] else [])

/-- Entries emitted before end-of-stream when the whole text arrives as one
chunk (exactly how `LogTransformPipeline.processLogContent` feeds it). -/
def cleEmittedBeforeFlush (text : String) : List String :=
  (cleTransform ⟨[], ""⟩ text).2

/-- All entries produced for a one-shot text: transform output then flush
output. -/
def completeLogEntries (text : String) : List String :=
  let (st, out) := cleTransform ⟨[], ""⟩ text
  out ++ cleFlush st

/-! ## Stage 2: `UnformatLogEntry` (log-processor/index.ts lines 92-171) -/

/-- Match of the leading-tag pattern `/^\[([^\]]+)\]\s?/` on a character
list: returns the tag text and the rest of the line (one optional
whitespace after the closing bracket consumed). -/
def matchTagL : List Char → Option (String × List Char)
  | '[' :: rest =>
      let content := rest.takeWhile (fun c => c ≠ ']')
      if content = [] then Option.none
      else
        match rest.drop content.length with
        | ']' :: after =>
            let after' := match after with
              | c :: t => if c.isWhitespace then t else c :: t
              | [] => []
            some (String.mk content, after')
        | _ => Option.none
  | _ => Option.none

theorem matchTagL_rest_lt (cs : List Char) (tag : String) (rest : List Char)
    (h : matchTagL cs = some (tag, rest)) : rest.length < cs.length := by
  rw [matchTagL.eq_def] at h
  split at h
  case h_2 => exact absurd h (by simp)
  case h_1 cs' =>
    simp only at h
    split at h
    · exact absurd h (by simp)
    · rename_i hcontent
      split at h
      case h_2 => exact absurd h (by simp)
      case h_1 after heq =>
        have hafter : after.length < cs'.length + 1 := by
          have := congrArg List.length heq
          simp only [List.length_drop, List.length_cons] at this
          omega
        split at h <;>
          first
          | (split at h <;>
              (cases h; simp only [List.length_cons] at hafter ⊢; omega))
          | (cases h; simp only [List.length_cons] at hafter ⊢; omega)

/-- The primary-tag stripping loop of the unformatter, with an explicit
step bound (each successful `matchTagL` strictly shortens the input by
`matchTagL_rest_lt`, so the bound used by `tagLoop` is never reached;
structural recursion on the bound keeps the function kernel-reducible). -/
def tagLoopF : Nat → List Char → List String → List String × List Char
  | 0, cs, acc => (acc, cs)
  | fuel + 1, cs, acc =>
      match matchTagL cs with
      | some p => tagLoopF fuel p.2 (acc ++ [p.1])
      | Option.none => (acc, cs)

/-- The primary-tag stripping loop of the unformatter. -/
def tagLoop (cs : List Char) (acc : List String) : List String × List Char :=
  tagLoopF (cs.length + 1) cs acc

/-- Match of the trailing secondary-tag pattern `/\(([^)]+)\)$/`: the line
must end with `)`, and the capture is everything after the leftmost `(`
that has no `)` between it and the final one. -/
def matchSecondaryTag (s : String) : Option String :=
  let cs := s.toList
  match cs.getLast? with
  | some ')' =>
      let body := cs.dropLast
      let seg := (body.reverse.takeWhile (fun c => c ≠ ')')).reverse
      match seg.findIdx? (fun c => c = '(') with
      | some i =>
          let content := seg.drop (i + 1)
          if content = [] then Option.none else some (String.mk content)
      | Option.none => Option.none
  | _ => Option.none

/-- First-line header parse plus body assembly of `UnformatLogEntry`'s
`transform`; returns `none` exactly when the source's early `return`s fire
(no timestamp, or no space after the timestamp's label). -/
def unformatLogEntry (chunk : String) : Option UnformattedLogInfo :=
  match jsSplit chunk '\n' with
  | [] => Option.none
  | firstLine :: otherLines =>
    if timestampTest firstLine then
      let timestamp := jsTake firstLine 23
      let rest0 := jsTrim (jsDrop firstLine 23)
      match rest0.toList.findIdx? (fun c => c = ' ') with
      | Option.none => Option.none
      | some labelEndIndex =>
        let label := jsTake rest0 labelEndIndex
        let rest1 := jsTrim (jsDrop rest0 (labelEndIndex + 1))
        let (direction, rest2) :=
          if jsStartsWith rest1 "« " then (Direction.inbound, jsTrim (jsDrop rest1 2))
          else if jsStartsWith rest1 "» " then (Direction.outbound, jsTrim (jsDrop rest1 2))
          else (Direction.none, rest1)
        let (tags0, restL) := tagLoop rest2.toList []
        let rest3 := String.mk restL
        let (secondary, rest4) :=
          match matchSecondaryTag rest3 with
          | some tag => (some tag, jsTrim (jsDropEnd rest3 (tag.length + 2)))
          | Option.none => (Option.none, rest3)
        -- Re-promote the last primary tag into the body when nothing but
        -- tags was on the line.
        let (primaryTags, rest5) :=
          if tags0.length > 0 && rest4 = "" then
            (tags0.dropLast, "[" ++ tags0.getLast! ++ "]")
          else (tags0, rest4)
        let indentation := 23 + 1 + label.length + 3
        let message := jsJoin "\n"
          ((rest5 :: otherLines.map (fun line => jsDrop line indentation)).filter
            (fun line => line.length > 0))
        some
          { timestamp := timestamp
            label := label
            direction := direction
            message := .str message
            primaryTags := if primaryTags.length > 0 then some primaryTags else Option.none
            secondaryTags := secondary }
    else Option.none

/-! ## Stage 3: `ParseNestedStructures` (log-processor/index.ts lines 174-282) -/

/-- The attribute-collecting loop of `parseNestedStructure`: splits the
lines following the header into raw attribute lines (with continuation
lines concatenated onto the previous attribute) and, when a `└─` line is
found, the de-indented lines of the single nested child. -/
def collectAttrs : List String → List String → List String × Option (List String)
  | [], acc => (acc, Option.none)
  | l :: ls, acc =>
      if jsStartsWith l "  " || jsStartsWith l "│ " then
        collectAttrs ls (acc ++ [jsDrop l 2])
      else if jsStartsWith l "└─" then
        (acc, some ((l :: ls).map (fun x => jsDrop x 2)))
      else if 0 < acc.length then
        collectAttrs ls (acc.dropLast ++ [acc.getLast! ++ l])
      else
        collectAttrs ls acc

theorem collectAttrs_nested_le (ls : List String) :
    ∀ acc r, (collectAttrs ls acc).2 = some r → r.length ≤ ls.length := by
  induction ls with
  | nil => intro acc r h; simp [collectAttrs] at h
  | cons l ls ih =>
    intro acc r h
    rw [collectAttrs.eq_def] at h
    simp only at h
    split at h
    · exact le_trans (ih _ _ h) (by simp)
    · split at h
      · simp only [Option.some.injEq] at h
        subst h
        simp
      · split at h
        · exact le_trans (ih _ _ h) (by simp)
        · exact le_trans (ih _ _ h) (by simp)

/-- One raw attribute line split at its first colon, the value
opportunistically typed; a line with no colon becomes a bare key with the
empty-string value. -/
def parseAttrLine (attr : String) : String × AttrValue :=
  match attr.toList.findIdx? (fun c => c = ':') with
  | Option.none => (jsTrim attr, AttrValue.str "")
  | some colonIndex =>
      (jsTrim (jsTake attr colonIndex),
        tryParseValue (jsTrim (jsDrop attr (colonIndex + 1))))

/-- The recursion of `parseNestedStructure` with an explicit depth bound:
each recursive call strictly shortens the line list (the nested child's
lines are a de-indented suffix, `collectAttrs_nested_le`), so the bound
used by `parseNestedStructure` is never reached; structural recursion on
the bound keeps the parser kernel-reducible. -/
def parseNestedStructureF : Nat → List String → Option LogInfoPayload
  | 0, _ => Option.none
  | fuel + 1, lines =>
      match lines with
      | [] => Option.none
      | msg :: rest =>
          if jsStartsWith msg "[" && jsEndsWith msg "]" then
            let attrsRaw := (collectAttrs rest []).1
            let nested : Option LogInfoPayload :=
              match (collectAttrs rest []).2 with
              | some nl => parseNestedStructureF fuel nl
              | Option.none => Option.none
            let attributes := jsFromEntries (attrsRaw.map parseAttrLine)
            some (.mk msg (if 0 < attrsRaw.length then some attributes else Option.none) nested)
          else Option.none

/-- `parseNestedStructure`: recursively decode a bracket-headed block into
a `LogInfoPayload`.  Returns `none` when the first line is not fully
bracket-delimited. -/
def parseNestedStructure (lines : List String) : Option LogInfoPayload :=
  parseNestedStructureF (lines.length + 1) lines

/-- The `ParseNestedStructures` transform: only engages for multi-line
string messages whose first line is fully bracket-delimited. -/
def parseNestedStage (chunk : UnformattedLogInfo) : UnformattedLogInfo :=
  match chunk.message with
  | .payload _ => chunk
  | .str m =>
      if ¬ jsIncludes m "\n" then chunk
      else
        let lines := jsSplit m '\n'
        match lines with
        | l0 :: _ :: _ =>
            if jsStartsWith l0 "[" && jsEndsWith l0 "]" then
              match parseNestedStructure lines with
              | some nested => { chunk with message := .payload nested }
              | Option.none => chunk
            else chunk
        | _ => chunk

/-! ## Stage 4: `FilterLogEntries` (log-processor/index.ts lines 285-330) -/

/-- The keep/drop predicate of `FilterLogEntries`: `true` iff the record is
enqueued (survives). -/
def filterLogEntry (chunk : UnformattedLogInfo) : Bool :=
  if chunk.label = "DRIVER" && chunk.direction == Direction.none &&
      (match chunk.message with
       | .str m => jsEndsWith m "queues busy" || jsEndsWith m "queues idle"
       | .payload _ => false) then false
  else if chunk.label = "SERIAL" then false
  else if chunk.label = "CNTRLR" &&
      (match chunk.message with
       | .payload p => jsIncludes p.message "translateValueEvent:"
       | .str _ => false) then false
  else if chunk.label = "CNTRLR" && (chunk.primaryTags.getD []).contains "setValue" then
    false
  else true

/-! ## Stage 5: `ClassifyLogEntry` (log-processor/index.ts lines 333-763)

First the four value-event message patterns.  Each is an anchored regex
with a greedy `property` run, an optional bracketed `propertyKey`, a lazy
value part, and an optional trailing `[Endpoint N]`; they are modelled by
deterministic scanners that follow the engine's backtracking order. -/

/-- JS `parseInt`: skip leading whitespace, optional sign, then the decimal
digit run; `none` models `NaN`. -/
def jsParseInt (s : String) : Option Int :=
  let cs := s.toList.dropWhile Char.isWhitespace
  let signAndRest : Int × List Char :=
    match cs with
    | '-' :: t => (-1, t)
    | '+' :: t => (1, t)
    | _ => (1, cs)
  let digits := signAndRest.2.takeWhile Char.isDigit
  if digits = [] then Option.none else some (signAndRest.1 * digitsVal digits)

/-- The greedy `property` capture `[^[:]+`: the maximal run of characters
that are neither `[` nor `:`. -/
def propertyRun (cs : List Char) : List Char :=
  cs.takeWhile (fun c => c ≠ '[' && c ≠ ':')

/-- Candidates for the optional `\[([^[]+)\]` key group when the input
starts with `[`: pairs (key, rest-after-`]`), in the engine's greedy
backtracking order (longest key first). -/
def keyCandidates (cs : List Char) : List (List Char × List Char) :=
  match cs with
  | '[' :: t =>
      let run := t.takeWhile (fun c => c ≠ '[')
      (List.range run.length).reverse.filterMap fun j =>
        if run.getD j ' ' = ']' && 1 ≤ j then some (run.take j, t.drop (j + 1))
        else Option.none
  | _ => []

/-- Match of the optional trailing group `\s*\[Endpoint (\d+)\]` against
the full remaining input (anchored at `$`). -/
def endpointTailMatch (cs : List Char) : Option Nat :=
  let rest := cs.dropWhile Char.isWhitespace
  if String.mk (rest.take 10) = "[Endpoint " then
    let ds := (rest.drop 10).takeWhile Char.isDigit
    if ds ≠ [] && rest.drop (10 + ds.length) = [']'] then some (digitsVal ds)
    else Option.none
  else Option.none

/-- Lazy scan for `(.+?)(?:\s*\[Endpoint (\d+)\])?$`: the shortest nonempty
newline-free value prefix whose remainder is the endpoint group or the end
of input. -/
def valueScan (acc : List Char) : List Char → Option (List Char × Option Nat)
  | [] => Option.none
  | c :: rest =>
      if c = '\n' then Option.none
      else
        let acc' := acc ++ [c]
        match endpointTailMatch rest with
        | some n => some (acc', some n)
        | Option.none =>
            if rest = [] then some (acc', Option.none) else valueScan acc' rest

/-- Lazy scan for `(.+?) => ` followed by an inner value scan, with the
engine's backtracking (extend the previous-value capture when the inner
scan fails). -/
def prevValueScan (acc : List Char) : List Char → Option (List Char × (List Char × Option Nat))
  | [] => Option.none
  | c :: rest =>
      if c = '\n' then Option.none
      else
        let acc' := acc ++ [c]
        if rest.take 4 = [' ', '=', '>', ' '] then
          match valueScan [] (rest.drop 4) with
          | some r => some (acc', r)
          | Option.none => prevValueScan acc' rest
        else prevValueScan acc' rest

/-- Shared head of the `: `-anchored value patterns: property, optional
key, then the literal `: `; returns (property, key?, rest).  No property
backtracking is possible for these patterns since characters inside the
maximal run can match neither `[` nor `:`. -/
def matchPropertyKeyColon (cs : List Char) : Option (List Char × Option (List Char) × List Char) :=
  let prop := propertyRun cs
  if prop = [] then Option.none
  else
    let after := cs.drop prop.length
    match after with
    | ':' :: ' ' :: q => some (prop, Option.none, q)
    | '[' :: _ =>
        (keyCandidates after).firstM fun p =>
          match p.2 with
          | ':' :: ' ' :: q => some (prop, some p.1, q)
          | _ => Option.none
    | _ => Option.none

/-- Parse result of `parseValueAddedMessage`. -/
structure ValueAddedParse where
  endpointIndex : Option Nat
  property : String
  propertyKey : Option String
  value : AttrValue
  deriving DecidableEq

/-- `parseValueAddedMessage` (lines 383-409). -/
def parseValueAddedMessage (message : String) : Option ValueAddedParse :=
  match matchPropertyKeyColon message.toList with
  | Option.none => Option.none
  | some (prop, key, q) =>
      match valueScan [] q with
      | Option.none => Option.none
      | some (v, endp) =>
          some
            { endpointIndex := endp
              property := String.mk prop
              propertyKey := key.map String.mk
              value := tryParseValue (String.mk v) }

/-- Parse result of `parseValueUpdatedMessage`. -/
structure ValueUpdatedParse where
  endpointIndex : Option Nat
  property : String
  propertyKey : Option String
  prevValue : AttrValue
  value : AttrValue
  deriving DecidableEq

/-- `parseValueUpdatedMessage` (lines 411-440). -/
def parseValueUpdatedMessage (message : String) : Option ValueUpdatedParse :=
  match matchPropertyKeyColon message.toList with
  | Option.none => Option.none
  | some (prop, key, q) =>
      match prevValueScan [] q with
      | Option.none => Option.none
      | some (prev, v, endp) =>
          some
            { endpointIndex := endp
              property := String.mk prop
              propertyKey := key.map String.mk
              prevValue := tryParseValue (String.mk prev)
              value := tryParseValue (String.mk v) }

/-- Parse result of `parseValueRemovedMessage`. -/
structure ValueRemovedParse where
  endpointIndex : Option Nat
  property : String
  propertyKey : Option String
  prevValue : AttrValue
  deriving DecidableEq

/-- Tail of the removed pattern after the property/key part:
` \(was ([^)]+?)\)(?:\s*\[Endpoint (\d+)\])?$`. -/
def matchWasTail (cs : List Char) : Option (List Char × Option Nat) :=
  if cs.take 6 = [' ', '(', 'w', 'a', 's', ' '] then
    let t := cs.drop 6
    let prev := t.takeWhile (fun c => c ≠ ')')
    if prev = [] then Option.none
    else
      match t.drop prev.length with
      | ')' :: tail =>
          match endpointTailMatch tail with
          | some n => some (prev, some n)
          | Option.none => if tail = [] then some (prev, Option.none) else Option.none
      | _ => Option.none
  else Option.none

/-- `parseValueRemovedMessage` (lines 442-463).  The literal ` (was ` can
occur inside the greedy property run, so the property capture backtracks:
candidate lengths are tried longest-first. -/
def parseValueRemovedMessage (message : String) : Option ValueRemovedParse :=
  let cs := message.toList
  let maxLen := (propertyRun cs).length
  ((List.range maxLen).reverse.map (fun k => k + 1)).firstM fun plen =>
    let prop := cs.take plen
    let after := cs.drop plen
    let tailResult : Option (Option (List Char) × List Char × Option Nat) :=
      match after with
      | '[' :: _ =>
          (keyCandidates after).firstM fun p =>
            (matchWasTail p.2).map fun r => (some p.1, r)
      | _ => (matchWasTail after).map fun r => (Option.none, r)
    tailResult.map fun r =>
      { endpointIndex := r.2.2
        property := String.mk prop
        propertyKey := r.1.map String.mk
        prevValue := tryParseValue (String.mk r.2.1) }

/-- Parse result of `parseMetadataUpdatedMessage`. -/
structure MetadataUpdatedParse where
  endpointIndex : Option Nat
  property : String
  propertyKey : Option String
  deriving DecidableEq

/-- `parseMetadataUpdatedMessage` (lines 465-484):
`^([^[:]+)(?:\[([^[]+)\])?: metadata updated(?:\s*\[Endpoint (\d+)\])?$`. -/
def parseMetadataUpdatedMessage (message : String) : Option MetadataUpdatedParse :=
  match matchPropertyKeyColon message.toList with
  | Option.none => Option.none
  | some (prop, key, q) =>
      if q.take 16 = "metadata updated".toList then
        let tail := q.drop 16
        let endp : Option (Option Nat) :=
          match endpointTailMatch tail with
          | some n => some (some n)
          | Option.none => if tail = [] then some Option.none else Option.none
        endp.map fun e =>
          { endpointIndex := e
            property := String.mk prop
            propertyKey := key.map String.mk }
      else Option.none

/-! ## The semantic event model (types.ts, `unnamed/part_007` lines 1104 ff.)

`SemanticLogInfo` is the closed tagged union produced by the classifier and
the two RSSI stages.  Optional fields model JS property absence (or a
present-but-`undefined` value where noted); `nodeId` is `Option Int` with
`none` standing for the `NaN` that `parseInt` can produce on a malformed
`Node` tag. -/

/-- A channel extremum of a background-RSSI summary (`{value, timestamp}`);
the value is `Option ℚ` because `parseInt` of a malformed reading is NaN. -/
structure MinMaxEntry where
  value : Option ℚ
  timestamp : String
  deriving DecidableEq

/-- Per-channel statistics of a background-RSSI summary. -/
structure ChannelStats where
  min : MinMaxEntry
  max : MinMaxEntry
  median : Option ℚ
  stddev : Option ℚ
  deriving DecidableEq

inductive SemanticLogInfo where
  | incomingCommand (timestamp : String) (nodeId : Option Int)
      (rssi : Option AttrValue) (payload : LogInfoPayload) (invalid : Bool)
  | sendDataRequest (timestamp : String) (nodeId : Option Int)
      (transmitOptions : Option AttrValue) (callbackId : Option AttrValue)
      (payload : LogInfoPayload)
  | sendDataResponse (timestamp : String) (success : Bool)
  | sendDataCallback (timestamp : String) (callbackId : Option AttrValue)
      (attributes : List (String × AttrValue))
  | request (timestamp : String) (direction : Direction) (message : MessageBody)
      (primaryTags : Option (List String)) (secondaryTags : Option String)
  | response (timestamp : String) (direction : Direction) (message : MessageBody)
      (primaryTags : Option (List String)) (secondaryTags : Option String)
  | callback (timestamp : String) (direction : Direction) (message : MessageBody)
      (primaryTags : Option (List String)) (secondaryTags : Option String)
  | valueAdded (timestamp : String) (nodeId : Option Int) (commandClass : String)
      (endpointIndex : Option Nat) (property : String) (propertyKey : Option String)
      (value : AttrValue)
  | valueUpdated (timestamp : String) (nodeId : Option Int) (commandClass : String)
      (endpointIndex : Option Nat) (property : String) (propertyKey : Option String)
      (prevValue : AttrValue) (value : AttrValue)
  | valueRemoved (timestamp : String) (nodeId : Option Int) (commandClass : String)
      (endpointIndex : Option Nat) (property : String) (propertyKey : Option String)
      (prevValue : AttrValue)
  | metadataUpdated (timestamp : String) (nodeId : Option Int) (commandClass : String)
      (endpointIndex : Option Nat) (property : String) (propertyKey : Option String)
  | backgroundRSSI (timestamp : String) (ch0 ch1 ch2 ch3 : Option AttrValue)
  | backgroundRSSISummary (timestamp : String) (samples : Nat)
      (rangeStart rangeEnd : String) (channels : List (String × ChannelStats))
  | other (info : UnformattedLogInfo)
  deriving DecidableEq

/-- The `kind` discriminant string of an event (the `SemanticLogKind`
string-constant table in types.ts). -/
def SemanticLogInfo.kind : SemanticLogInfo → String
  | .incomingCommand .. => "INCOMING_COMMAND"
  | .sendDataRequest .. => "SEND_DATA_REQUEST"
  | .sendDataResponse .. => "SEND_DATA_RESPONSE"
  | .sendDataCallback .. => "SEND_DATA_CALLBACK"
  | .request .. => "REQUEST"
  | .response .. => "RESPONSE"
  | .callback .. => "CALLBACK"
  | .valueAdded .. => "VALUE_ADDED"
  | .valueUpdated .. => "VALUE_UPDATED"
  | .valueRemoved .. => "VALUE_REMOVED"
  | .metadataUpdated .. => "METADATA_UPDATED"
  | .backgroundRSSI .. => "BACKGROUND_RSSI"
  | .backgroundRSSISummary .. => "BACKGROUND_RSSI_SUMMARY"
  | .other _ => "OTHER"

/-- The `timestamp` field carried by every variant. -/
def SemanticLogInfo.timestamp : SemanticLogInfo → String
  | .incomingCommand ts .. => ts
  | .sendDataRequest ts .. => ts
  | .sendDataResponse ts _ => ts
  | .sendDataCallback ts .. => ts
  | .request ts .. => ts
  | .response ts .. => ts
  | .callback ts .. => ts
  | .valueAdded ts .. => ts
  | .valueUpdated ts .. => ts
  | .valueRemoved ts .. => ts
  | .metadataUpdated ts .. => ts
  | .backgroundRSSI ts .. => ts
  | .backgroundRSSISummary ts .. => ts
  | .other info => info.timestamp

/-- The `direction` property, `none` modelling JS `undefined` (only the
generic request/response/callback variants and `Other` retain one). -/
def SemanticLogInfo.direction : SemanticLogInfo → Option Direction
  | .request _ d .. => some d
  | .response _ d .. => some d
  | .callback _ d .. => some d
  | .other info => some info.direction
  | _ => Option.none

/-- The `message` property, `none` modelling JS `undefined`. -/
def SemanticLogInfo.message : SemanticLogInfo → Option MessageBody
  | .request _ _ m .. => some m
  | .response _ _ m .. => some m
  | .callback _ _ m .. => some m
  | .other info => some info.message
  | _ => Option.none

/-! ### The classifier itself -/

/-- `extractAttribute` (lines 338-358): read and delete an attribute key,
dropping the `attributes` object entirely when it becomes empty.  (The
source's `typeof` check never fires in the model because attribute values
are always primitives.) -/
def extractAttribute (info : LogInfoPayload) (key : String) :
    Option AttrValue × LogInfoPayload :=
  match info.attributes with
  | some attrs =>
      if attrs.any (fun p => p.1 = key) then
        let attrs' := jsDelete attrs key
        (jsGet attrs key,
          .mk info.message (if attrs' = [] then Option.none else some attrs') info.nested)
      else (Option.none, info)
  | Option.none => (Option.none, info)

/-- `stripSquareBrackets` (lines 360-365): drop one outer bracket pair from
every message down the `nested` chain. -/
def stripSquareBrackets : LogInfoPayload → LogInfoPayload
  | .mk m a n =>
      let m' := if jsStartsWith m "[" && jsEndsWith m "]" then jsDropEnd (jsDrop m 1) 1 else m
      let n' := match n with
        | some p => some (stripSquareBrackets p)
        | Option.none => Option.none
      .mk m' a n'

/-- `hasNodeIdTag` (lines 367-369). -/
def hasNodeIdTag (chunk : UnformattedLogInfo) : Bool :=
  (chunk.primaryTags.getD []).any (fun tag => jsStartsWith tag "Node ")

/-- `extractNodeIdTag` (lines 371-381): splice the first `Node ` tag out of
`primaryTags` and parse its number.  The result is `none` when there is no
such tag or when `parseInt` yields NaN (call sites are guarded by
`hasNodeIdTag`, so only the NaN case is reachable there). -/
def extractNodeIdTag (chunk : UnformattedLogInfo) :
    Option Int × UnformattedLogInfo :=
  match chunk.primaryTags with
  | Option.none => (Option.none, chunk)
  | some tags =>
      match tags.findIdx? (fun t => jsStartsWith t "Node ") with
      | Option.none => (Option.none, chunk)
      | some i =>
          let tag := tags.getD i ""
          let tags' := tags.take i ++ tags.drop (i + 1)
          (jsParseInt (jsDrop tag 5), { chunk with primaryTags := some tags' })

/-- Guard of the incoming-command branch (lines 489-497). -/
def condIncomingCommand (chunk : UnformattedLogInfo) : Bool :=
  chunk.label = "DRIVER" && chunk.direction == Direction.inbound &&
  (chunk.primaryTags.getD []).contains "REQ" && hasNodeIdTag chunk &&
  (match chunk.message with
   | .payload p => jsEndsWith p.message "ApplicationCommand]" && p.nested.isSome
   | .str _ => false)

/-- Guard of the SendData-request branch (lines 532-540). -/
def condSendDataRequest (chunk : UnformattedLogInfo) : Bool :=
  chunk.label = "DRIVER" && chunk.direction == Direction.outbound &&
  (chunk.primaryTags.getD []).contains "REQ" && hasNodeIdTag chunk &&
  (match chunk.message with
   | .payload p => jsStartsWith p.message "[SendData" && p.nested.isSome
   | .str _ => false)

/-- Guard of the SendData-response branch (lines 572-578). -/
def condSendDataResponse (chunk : UnformattedLogInfo) : Bool :=
  chunk.label = "DRIVER" && chunk.direction == Direction.inbound &&
  (chunk.primaryTags.getD []).contains "RES" &&
  (match chunk.message with
   | .payload p => jsStartsWith p.message "[SendData"
   | .str _ => false)

/-- Guard of the SendData-callback branch (lines 593-599). -/
def condSendDataCallback (chunk : UnformattedLogInfo) : Bool :=
  chunk.label = "DRIVER" && chunk.direction == Direction.inbound &&
  (chunk.primaryTags.getD []).contains "REQ" &&
  (match chunk.message with
   | .payload p => jsStartsWith p.message "[SendData"
   | .str _ => false)

/-- The three generic framing kinds (lines 622-653): which one, if any,
the direction/tag combination selects. -/
inductive GenericKind where
  | request
  | response
  | callback
  deriving DecidableEq

def genericKind (chunk : UnformattedLogInfo) : Option GenericKind :=
  if chunk.label = "DRIVER" && !(chunk.direction == Direction.none) &&
      0 < (chunk.primaryTags.getD []).length then
    let tags := chunk.primaryTags.getD []
    if chunk.direction == Direction.outbound && tags.contains "REQ" then
      some .request
    else if chunk.direction == Direction.inbound && tags.contains "RES" then
      some .response
    else if chunk.direction == Direction.inbound && tags.contains "REQ" then
      some .callback
    else Option.none
  else Option.none

/-- Guard of the value-event family (lines 680-685). -/
def condValueBase (chunk : UnformattedLogInfo) : Bool :=
  chunk.label = "CNTRLR" && chunk.direction == Direction.none &&
  hasNodeIdTag chunk &&
  (match chunk.message with
   | .str _ => true
   | .payload _ => false)

/-- A placeholder payload for branches whose guard guarantees the value is
never read (JS would have thrown before reaching them). -/
def emptyPayload : LogInfoPayload := .mk "" Option.none Option.none

/-- `ClassifyLogEntry`'s `transform` callback, as the list of events it
enqueues for one record.  Every `controller.enqueue(x); return;` of the
source corresponds to returning a one-element list. -/
def classifyList (chunk : UnformattedLogInfo) : List SemanticLogInfo :=
  -- Find incoming commands
  if condIncomingCommand chunk then
    match chunk.message with
    | .payload p =>
        let nodeId := (extractNodeIdTag chunk).1
        let er := extractAttribute p "RSSI"
        let rssi := er.1
        let p1 := er.2
        let inv : Bool × LogInfoPayload :=
          match p1.nested with
          | some n =>
              if jsEndsWith n.message " [INVALID]" then
                (true, .mk p1.message p1.attributes
                  (some (.mk (jsDropEnd n.message 10) n.attributes n.nested)))
              else (false, p1)
          | Option.none => (false, p1)
        let payload :=
          match inv.2.nested with
          | some n => stripSquareBrackets n
          | Option.none => emptyPayload
        [.incomingCommand chunk.timestamp nodeId
          (match rssi with
           | some v => if v.truthy then some v else Option.none
           | Option.none => Option.none)
          payload inv.1]
    | .str _ => [.other chunk]
  else if condSendDataRequest chunk then
    match chunk.message with
    | .payload p =>
        let nodeId := (extractNodeIdTag chunk).1
        let e1 := extractAttribute p "transmit options"
        let e2 := extractAttribute e1.2 "callback id"
        let e3 := extractAttribute e2.2 "source node id"
        let ps := stripSquareBrackets e3.2
        [.sendDataRequest chunk.timestamp nodeId e1.1 e2.1 (ps.nested.getD emptyPayload)]
    | .str _ => [.other chunk]
  else if condSendDataResponse chunk then
    match chunk.message with
    | .payload p =>
        let e1 := extractAttribute p "was sent"
        [.sendDataResponse chunk.timestamp ((e1.1.map AttrValue.truthy).getD false)]
    | .str _ => [.other chunk]
  else if condSendDataCallback chunk then
    match chunk.message with
    | .payload p =>
        let e1 := extractAttribute p "callback id"
        let ps := stripSquareBrackets e1.2
        [.sendDataCallback chunk.timestamp e1.1 (ps.attributes.getD [])]
    | .str _ => [.other chunk]
  else
    -- Classify unspecified requests/responses/callbacks
    match genericKind chunk with
    | some gk =>
        let tags := chunk.primaryTags.getD []
        let tags' := tags.filter (fun t => t ≠ "REQ" && t ≠ "RES")
        let pt := if tags'.length = 0 then Option.none else some tags'
        let msg' : MessageBody :=
          match chunk.message with
          | .str s => .str s
          | .payload p => .payload (stripSquareBrackets p)
        [match gk with
         | .request => .request chunk.timestamp chunk.direction msg' pt chunk.secondaryTags
         | .response => .response chunk.timestamp chunk.direction msg' pt chunk.secondaryTags
         | .callback => .callback chunk.timestamp chunk.direction msg' pt chunk.secondaryTags]
    | Option.none =>
        -- Find value events
        if condValueBase chunk then
          match chunk.message with
          | .str m =>
              let tags := chunk.primaryTags.getD []
              if tags.contains "+" then
                match tags.reverse.find? (fun t => t ≠ "+"), parseValueAddedMessage m with
                | some cc, some parsed =>
                    if cc = "" then [.other chunk]
                    else
                      [.valueAdded chunk.timestamp (extractNodeIdTag chunk).1 cc
                        parsed.endpointIndex parsed.property parsed.propertyKey parsed.value]
                | _, _ => [.other chunk]
              else if tags.contains "~" then
                match tags.reverse.find? (fun t => t ≠ "~"), parseValueUpdatedMessage m with
                | some cc, some parsed =>
                    if cc = "" then [.other chunk]
                    else
                      [.valueUpdated chunk.timestamp (extractNodeIdTag chunk).1 cc
                        parsed.endpointIndex parsed.property parsed.propertyKey
                        parsed.prevValue parsed.value]
                | _, _ => [.other chunk]
              else if tags.contains "-" then
                match tags.reverse.find? (fun t => t ≠ "-"), parseValueRemovedMessage m with
                | some cc, some parsed =>
                    if cc = "" then [.other chunk]
                    else
                      [.valueRemoved chunk.timestamp (extractNodeIdTag chunk).1 cc
                        parsed.endpointIndex parsed.property parsed.propertyKey
                        parsed.prevValue]
                | _, _ => [.other chunk]
              else if tags.length = 2 then
                match parseMetadataUpdatedMessage m with
                | some parsed =>
                    [.metadataUpdated chunk.timestamp (extractNodeIdTag chunk).1
                      (tags.getLast!) parsed.endpointIndex parsed.property
                      parsed.propertyKey]
                | Option.none => [.other chunk]
              else [.other chunk]
          | .payload _ => [.other chunk]
        else
          -- Treat all other entries as "other"
          [.other chunk]

/-! ## Stage 6: `DetectBackgroundRSSICalls` (log-processor/index.ts lines
766-868) -/

/-- State of the two-event correlator: at most one pending outbound
`GetBackgroundRSSI` request plus the FIFO buffer of events seen while it is
pending. -/
structure DetectState where
  pendingRequest : Option SemanticLogInfo
  bufferedEntries : List SemanticLogInfo
  deriving DecidableEq

/-- The guard for a new `GetBackgroundRSSI` request (lines 790-794). -/
def isBgRequest (chunk : SemanticLogInfo) : Bool :=
  chunk.kind = "REQUEST" && chunk.direction == some Direction.outbound &&
  chunk.message == some (.str "[GetBackgroundRSSI]")

/-- The guard for the matching inbound response carrying channel attributes
(lines 821-827). -/
def isBgResponse (chunk : SemanticLogInfo) : Bool :=
  chunk.kind = "RESPONSE" && chunk.direction == some Direction.inbound &&
  (match chunk.message with
   | some (.payload p) => p.message = "GetBackgroundRSSI" && p.attributes.isSome
   | _ => false)

/-- The attributes object of a matching response. -/
def bgResponseAttrs (chunk : SemanticLogInfo) : List (String × AttrValue) :=
  match chunk.message with
  | some (.payload p) => p.attributes.getD []
  | _ => []

/-- The `flush` callback (lines 856-863): any pending request first, then
the buffered entries, in original relative order. -/
def detectFlush (st : DetectState) : List SemanticLogInfo :=
  (match st.pendingRequest with
   | some p => [p]
   | Option.none => []) ++ st.bufferedEntries

/-- The synthetic merged entry (lines 832-844): stamped with the request's
timestamp; `channel 0`/`channel 1` keys always created from the response
attributes, `channel 2`/`channel 3` only when present and truthy. -/
def mkMergedEntry (pending : SemanticLogInfo) (attributes : List (String × AttrValue)) :
    SemanticLogInfo :=
  .backgroundRSSI pending.timestamp
    (jsGet attributes "channel 0")
    (jsGet attributes "channel 1")
    (match jsGet attributes "channel 2" with
     | some v => if v.truthy then some v else Option.none
     | Option.none => Option.none)
    (match jsGet attributes "channel 3" with
     | some v => if v.truthy then some v else Option.none
     | Option.none => Option.none)

/-- The `transform` callback: returns the new state and the enqueued
events. -/
def detectStep (st : DetectState) (chunk : SemanticLogInfo) :
    DetectState × List SemanticLogInfo :=
  if isBgRequest chunk then
    (⟨some chunk, []⟩, detectFlush st)
  else
    match st.pendingRequest with
    | Option.none => (st, [chunk])
    | some pending =>
        let timeDiff :=
          parseTimestampMs chunk.timestamp - parseTimestampMs pending.timestamp
        if 200 < timeDiff then
          (⟨Option.none, []⟩, detectFlush st ++ [chunk])
        else if isBgResponse chunk then
          (⟨Option.none, []⟩,
            st.bufferedEntries ++ [mkMergedEntry pending (bgResponseAttrs chunk)])
        else
          (⟨some pending, st.bufferedEntries ++ [chunk]⟩, [])

/-- Run the correlator over a list of events, collecting all output. -/
def detectRun : DetectState → List SemanticLogInfo → DetectState × List SemanticLogInfo
  | st, [] => (st, [])
  | st, c :: cs =>
      let r1 := detectStep st c
      let r2 := detectRun r1.1 cs
      (r2.1, r1.2 ++ r2.2)

/-- The whole `DetectBackgroundRSSICalls` stage on a finished stream. -/
def detectBackgroundRSSICalls (events : List SemanticLogInfo) : List SemanticLogInfo :=
  let r := detectRun ⟨Option.none, []⟩ events
  r.2 ++ detectFlush r.1

/-! ## Stage 7: `AggregateBackgroundRSSI` (log-processor/index.ts lines
871-1031)

The statistics work on `Option ℚ`, `none` modelling the NaN that
`parseInt` yields on a malformed reading (NaN-propagating arithmetic,
NaN-comparisons false). -/

/-- `parseRSSIValue`: `parseInt("-107 dBm") = -107`; NaN is `none`. -/
def parseRSSIValue (rssiString : String) : Option ℚ :=
  (jsParseInt rssiString).map fun i => (i : ℚ)

/-- NaN-propagating addition. -/
def jqAdd : Option ℚ → Option ℚ → Option ℚ
  | some a, some b => some (a + b)
  | _, _ => Option.none

/-- NaN-propagating strict `<` (false whenever either side is NaN). -/
def jqLt (a b : Option ℚ) : Bool :=
  match a, b with
  | some x, some y => x < y
  | _, _ => false

/-- Comparator order used to model `[...].sort((a, b) => a - b)`: numbers
ascending; a NaN comparator result leaves the JS order implementation-
defined, and the model places NaN last. -/
def jqSortLe (a b : Option ℚ) : Bool :=
  match a, b with
  | some x, some y => x ≤ y
  | some _, Option.none => true
  | Option.none, Option.none => true
  | Option.none, some _ => false

/-- Stable insertion sort modelling `[...].sort(comparator)` (the JS sort
is stable, and any stable sort agrees with it for a consistent
comparator). -/
def insertSorted (le : Option ℚ → Option ℚ → Bool) (x : Option ℚ) :
    List (Option ℚ) → List (Option ℚ)
  | [] => [x]
  | y :: ys => if le y x then y :: insertSorted le x ys else x :: y :: ys

/-- The sorted copy `[...values].sort((a, b) => a - b)`. -/
def sortJS (values : List (Option ℚ)) : List (Option ℚ) :=
  values.foldl (fun acc v => insertSorted jqSortLe v acc) []

/-- `calculateMedian` (lines 883-890). -/
def calculateMedian (values : List (Option ℚ)) : Option ℚ :=
  let sorted := sortJS values
  let mid := sorted.length / 2
  if sorted.length % 2 = 0 then
    match sorted.getD (mid - 1) Option.none, sorted.getD mid Option.none with
    | some a, some b => some ((a + b) / 2)
    | _, _ => Option.none
  else sorted.getD mid Option.none

/-- Sum as in `values.reduce((sum, val) => sum + val, 0)`. -/
def jqSum (values : List (Option ℚ)) : Option ℚ :=
  values.foldl jqAdd (some 0)

/-- The mean used inside `calculateStdDev` (division by a zero length is
NaN). -/
def jqMean (values : List (Option ℚ)) : Option ℚ :=
  if values.length = 0 then Option.none
  else
    match jqSum values with
    | some s => some (s / values.length)
    | Option.none => Option.none

/-- The population variance of `calculateStdDev` (lines 892-899). -/
def jqVariance (values : List (Option ℚ)) : Option ℚ :=
  if values.length = 0 then Option.none
  else
    match jqMean values with
    | Option.none => Option.none
    | some mean =>
        match jqSum (values.map fun v => (v.map fun x => (x - mean) ^ 2)) with
        | some s => some (s / values.length)
        | Option.none => Option.none

/-- Newton iteration for the integer square root (the fuel only bounds the
iteration count, which strictly decreases; kernel-reducible replacement
for `Nat.sqrt`). -/
def isqrtNewton (n : Nat) : Nat → Nat → Nat
  | 0, x => x
  | fuel + 1, x =>
      let x' := (x + n / x) / 2
      if x' < x then isqrtNewton n fuel x' else x

/-- The integer square root `⌊√n⌋`. -/
def isqrt (n : Nat) : Nat :=
  if n = 0 then 0 else isqrtNewton n n n

/-- Exact value of `Math.round(100 * Math.sqrt v)` for a rational `v ≥ 0`,
computed by integer square roots: `round y = ⌊(⌊2·y⌋ + 1) / 2⌋` with
`2·y = √(4·10000·v)`. -/
def mathRoundSqrt100 (v : ℚ) : ℕ :=
  let w := 10000 * v
  (isqrt ((4 * w.num).toNat / w.den) + 1) / 2

/-- `Math.round(calculateStdDev(values) * 100) / 100` (line 964-965): the
population standard deviation rounded to 2 decimal places. -/
def roundedStdDev (values : List (Option ℚ)) : Option ℚ :=
  match jqVariance values with
  | Option.none => Option.none
  | some v => some ((mathRoundSqrt100 v : ℚ) / 100)

/-- `findMinMaxWithTimestamp` (lines 901-928), with JS `NaN < x` and
`NaN > x` both false. -/
def findMinMaxWithTimestamp (values : List (Option ℚ)) (timestamps : List String) :
    MinMaxEntry × MinMaxEntry :=
  let v0 := values.headD Option.none
  let t0 := timestamps.headD ""
  ((values.tail).zip (timestamps.tail)).foldl
    (fun acc p =>
      let mn := if jqLt p.1 acc.1.value then MinMaxEntry.mk p.1 p.2 else acc.1
      let mx := if jqLt acc.2.value p.1 then MinMaxEntry.mk p.1 p.2 else acc.2
      (mn, mx))
    (MinMaxEntry.mk v0 t0, MinMaxEntry.mk v0 t0)

/-- The channel keys of a `BACKGROUND_RSSI` entry that hold string values,
in `Object.entries` insertion order (the `kind`/`timestamp` keys and
non-string values are skipped by the collector). -/
def bgChannels : SemanticLogInfo → List (String × String)
  | .backgroundRSSI _ c0 c1 c2 c3 =>
      [("channel 0", c0), ("channel 1", c1), ("channel 2", c2), ("channel 3", c3)].filterMap
        fun p =>
          match p.2 with
          | some (AttrValue.str s) => some (p.1, s)
          | _ => Option.none
  | _ => []

/-- Append one reading to the per-channel collection, creating the channel
record on first sight (`channels[channelKey] ??= ...`). -/
def channelUpsert (acc : List (String × (List (Option ℚ) × List String)))
    (key : String) (v : Option ℚ) (ts : String) :
    List (String × (List (Option ℚ) × List String)) :=
  if acc.any (fun p => p.1 = key) then
    acc.map fun p =>
      if p.1 = key then (key, (p.2.1 ++ [v], p.2.2 ++ [ts])) else p
  else acc ++ [(key, ([v], [ts]))]

/-- The channel-collection loop of `aggregateRSSIEntries` (lines 938-954). -/
def channelsCollect (entries : List SemanticLogInfo) :
    List (String × (List (Option ℚ) × List String)) :=
  entries.foldl
    (fun acc e =>
      if e.kind = "BACKGROUND_RSSI" then
        (bgChannels e).foldl
          (fun acc2 p => channelUpsert acc2 p.1 (parseRSSIValue p.2) e.timestamp) acc
      else acc)
    []

/-- `aggregateRSSIEntries` (lines 930-987): one summary event for a run of
buffered readings. -/
def aggregateRSSIEntries (entries : List SemanticLogInfo) : SemanticLogInfo :=
  let channelStats := (channelsCollect entries).map fun p =>
    let mm := findMinMaxWithTimestamp p.2.1 p.2.2
    (p.1,
      ChannelStats.mk mm.1 mm.2 (calculateMedian p.2.1) (roundedStdDev p.2.1))
  .backgroundRSSISummary
    ((entries.headD (.backgroundRSSI "" Option.none Option.none Option.none Option.none)).timestamp)
    entries.length
    ((entries.headD (.backgroundRSSI "" Option.none Option.none Option.none Option.none)).timestamp)
    ((entries.getLastD (.backgroundRSSI "" Option.none Option.none Option.none Option.none)).timestamp)
    channelStats

/-- `flushBufferedEntries` of the aggregator (lines 989-1006): at most two
buffered entries are emitted unchanged, more are collapsed into one
summary. -/
def aggFlush (buf : List SemanticLogInfo) : List SemanticLogInfo :=
  if buf.length = 0 then []
  else if buf.length ≤ 2 then buf
  else [aggregateRSSIEntries buf]

/-- The aggregator's `transform` callback. -/
def aggStep (buf : List SemanticLogInfo) (chunk : SemanticLogInfo) :
    List SemanticLogInfo × List SemanticLogInfo :=
  if chunk.kind = "BACKGROUND_RSSI" then (buf ++ [chunk], [])
  else ([], aggFlush buf ++ [chunk])

/-- Run the aggregator over a list of events. -/
def aggRun : List SemanticLogInfo → List SemanticLogInfo →
    List SemanticLogInfo × List SemanticLogInfo
  | buf, [] => (buf, [])
  | buf, c :: cs =>
      let r1 := aggStep buf c
      let r2 := aggRun r1.1 cs
      (r2.1, r1.2 ++ r2.2)

/-- The whole `AggregateBackgroundRSSI` stage on a finished stream. -/
def aggregateBackgroundRSSI (events : List SemanticLogInfo) : List SemanticLogInfo :=
  let r := aggRun [] events
  r.2 ++ aggFlush r.1

/-! ## The full pipeline: `LogTransformPipeline.processLogContent`
(log-processor/index.ts lines 1034-1074)

`pipeThrough` chains the seven stages; closing the upstream runs each
stage's `flush` before the downstream consumes end-of-stream, so the
one-shot composition below (process all, then flush, stage by stage) is
exactly the stream semantics. -/

/-- The classified stream entering the two RSSI stages (output of stages
1-5). -/
def classifiedStream (logContent : String) : List SemanticLogInfo :=
  ((((completeLogEntries logContent).filterMap unformatLogEntry).map
      parseNestedStage).filter filterLogEntry).flatMap classifyList

/-- The final semantic event sequence for one log text. -/
def processLogContent (logContent : String) : List SemanticLogInfo :=
  aggregateBackgroundRSSI (detectBackgroundRSSICalls (classifiedStream logContent))

/-! ## The query engine (src/lib/log-query-engine.ts)

The engine handles entries dynamically (its filter helpers are written
over `any`), so on this side events are modelled as JSON-like values. -/

/-- A JS runtime value as the query engine sees it. -/
inductive JsonValue where
  | null
  | bool (b : Bool)
  | num (q : ℚ)
  | str (s : String)
  | arr (items : List JsonValue)
  | obj (fields : List (String × JsonValue))

/-- JS strict equality `===` restricted to the values a filter compares:
structural on primitives; `false` across types and on object/array
operands (distinct references; a filter value is never an alias of an
event's field). -/
def jsStrictEq : JsonValue → JsonValue → Bool
  | .null, .null => true
  | .bool a, .bool b => a == b
  | .num a, .num b => a == b
  | .str a, .str b => a == b
  | _, _ => false

/-- Whether a string is a canonical array index ("0", "1", ...). -/
def canonicalIndex (s : String) : Option Nat :=
  if s = "0" then some 0
  else
    match s.toList with
    | c :: _ =>
        if c ≠ '0' && allDigits s then some (digitsVal s.toList) else Option.none
    | [] => Option.none

/-- One JS property read `current[part]` on a non-null value; `none` is
`undefined`. -/
def jsAccess : JsonValue → String → Option JsonValue
  | .obj fields, part => (fields.find? (fun p => p.1 = part)).map Prod.snd
  | .arr items, part =>
      if part = "length" then some (.num items.length)
      else
        match canonicalIndex part with
        | some i => items.get? i
        | Option.none => Option.none
  | .str s, part => if part = "length" then some (.num s.length) else Option.none
  | _, _ => Option.none

/-- The path segments used by `getValueByPath` (line 570): the dot-split
path with every segment equal to `"attributes"` filtered out. -/
def pathParts (path : String) : List String :=
  (jsSplit path '.').filter (fun p => p ≠ "attributes")

/-- The walking loop of `getValueByPath` (lines 571-579): `current` starts
at the object and is replaced by `current[part]`; the loop breaks early on
`null`/`undefined` (and a `null` reached mid-path is returned as the
result, since only `undefined` triggers the retry). -/
def pathWalk (current : Option JsonValue) : List String → Option JsonValue
  | [] => current
  | part :: rest =>
      match current with
      | Option.none => Option.none
      | some .null => some .null
      | some v => pathWalk (jsAccess v part) rest

/-- `getValueByPath` (lines 569-596): the (attributes-filtered) direct walk
first; when it yields `undefined` and the filtered path has a single
segment, retry under the `attributes` sub-object. -/
def getValueByPath (obj : JsonValue) (path : String) : Option JsonValue :=
  let parts := pathParts path
  match pathWalk (some obj) parts with
  | some v => some v
  | Option.none =>
      if parts.length = 1 then
        match jsAccess obj "attributes" with
        | some attrs => jsAccess attrs (parts.headD "")
        | Option.none => Option.none
      else Option.none

/-- The resolution rule exactly as the spec sentence states it (built from
the spec's words, to be compared with the source's `getValueByPath`): the
dot-separated path is resolved literally against the event object — no
segment is dropped — and only when that fails and the path has a single
segment is it retried under the event's `attributes` sub-object. -/
def resolveLiteralSpec (obj : JsonValue) (path : String) : Option JsonValue :=
  let parts := jsSplit path '.'
  match pathWalk (some obj) parts with
  | some v => some v
  | Option.none =>
      if parts.length = 1 then
        match jsAccess obj "attributes" with
        | some attrs => jsAccess attrs (parts.headD "")
        | Option.none => Option.none
      else Option.none

/-! ### Regex-mode detection and text matching (lines 392-460, 677-739) -/

/-- Flags accepted by the `/pattern/flags` wrapper. -/
def isRegexFlag (c : Char) : Bool :=
  c = 'g' || c = 'i' || c = 'm' || c = 'u' || c = 'y'

/-- The lazy scan of `/^\/(.+?)\/([gimuy]*)$/`: the shortest nonempty
newline-free pattern followed by `/` and a valid flag tail. -/
def regexWrapperScan (acc : List Char) : List Char → Option (String × String)
  | [] => Option.none
  | c :: t =>
      if c = '\n' then Option.none
      else
        let acc' := acc ++ [c]
        match t with
        | '/' :: fl =>
            if fl.all isRegexFlag then some (String.mk acc', String.mk fl)
            else regexWrapperScan acc' t
        | _ => regexWrapperScan acc' t

/-- Match of the explicit `/pattern/flags` wrapper against a query. -/
def regexWrapperMatch (query : String) : Option (String × String) :=
  match query.toList with
  | '/' :: rest => regexWrapperScan [] rest
  | _ => Option.none

/-- Occurrence of `/\[[^\]]+\]/` (a character class). -/
def hasCharClass : List Char → Bool
  | [] => false
  | '[' :: rest =>
      let content := rest.takeWhile (fun c => c ≠ ']')
      if content ≠ [] && content.length < rest.length then true
      else hasCharClass rest
  | _ :: rest => hasCharClass rest

/-- Occurrence of `/\([^)]*\)/` (a group): a `(` with some `)` after it. -/
def hasGroup : List Char → Bool
  | [] => false
  | '(' :: rest => rest.contains ')' || hasGroup rest
  | _ :: rest => hasGroup rest

/-- Occurrence of `/\^.*\$/`: a `^` followed by a `$` with no newline in
between (`.` does not match newlines). -/
def hasAnchors : List Char → Bool
  | [] => false
  | '^' :: rest =>
      (rest.takeWhile (fun c => c ≠ '\n')).contains '$' || hasAnchors rest
  | _ :: rest => hasAnchors rest

/-- Occurrence of `/\\[dwsWDS]/` (a common escape sequence). -/
def hasCommonEscape : List Char → Bool
  | [] => false
  | '\\' :: c :: rest =>
      c = 'd' || c = 'w' || c = 's' || c = 'W' || c = 'D' || c = 'S' ||
      hasCommonEscape (c :: rest)
  | _ :: rest => hasCommonEscape rest

/-- `isLikelyRegex` (lines 446-460 and 725-739): the auto-detection
heuristic shared by text search and `match` filters. -/
def isLikelyRegex (query : String) : Bool :=
  let cs := query.toList
  cs.contains '|' || hasCharClass cs || hasGroup cs ||
  cs.contains '*' || cs.contains '+' || cs.contains '?' ||
  hasAnchors cs || hasCommonEscape cs ||
  jsIncludes query ".*" || jsIncludes query ".+"

/-- An abstract JS regex engine: `compile pattern flags` yields a test
function, or `none` when `new RegExp(pattern, flags)` would throw.  The
engine's behaviour is opaque to the claims under verification, which only
concern the fallback control flow. -/
def RegexEngine : Type := String → String → Option (String → Bool)

/-- `TextSearchIndex.search` (lines 392-441), over the lowercased content
map (index, searchable text) in insertion order. -/
def textSearch (compile : RegexEngine) (contentMap : List (Nat × String))
    (query : String) : List Nat :=
  let wrapper := regexWrapperMatch query
  let isRegex :=
    match wrapper with
    | some _ => true
    | Option.none => isLikelyRegex query
  let searchPattern :=
    match wrapper with
    | some p => p.1
    | Option.none => query
  let regexFlags :=
    match wrapper with
    | some p => if p.2 = "" then "i" else p.2
    | Option.none => "i"
  if isRegex then
    match compile searchPattern regexFlags with
    | some test => (contentMap.filter (fun p => test p.2)).map Prod.fst
    | Option.none =>
        let fallbackTerm :=
          match wrapper with
          | some _ => jsToLower searchPattern
          | Option.none => jsToLower query
        (contentMap.filter (fun p => jsIncludes p.2 fallbackTerm)).map Prod.fst
  else
    let plainTerm := jsToLower query
    (contentMap.filter (fun p => jsIncludes p.2 plainTerm)).map Prod.fst

/-! ### String conversion and comparison for filter operators -/

/-- `String(n)` for the number values reachable here: exact for integers
and terminating decimals (all numeric attribute values are parsed from
such notations); non-terminating rationals (unreachable from parsed data,
where JS would print a float approximation) get a marker rendering. -/
def jsNumToString (q : ℚ) : String :=
  if q.den = 1 then toString q.num
  else
    match (List.range 40).find? (fun k => (10 ^ k) % q.den = 0) with
    | some k =>
        let scaled := q.num.natAbs * ((10 ^ k) / q.den)
        let digits := toString scaled
        let digits := String.mk (List.replicate (k + 1 - digits.length) '0') ++ digits
        let point := digits.length - k
        (if q.num < 0 then "-" else "") ++ jsTake digits point ++ "." ++ jsDrop digits point
    | Option.none => "<non-terminating>"

/-- `String(v)` on a filter operand. -/
def jsToString : JsonValue → String
  | .null => "null"
  | .bool b => if b then "true" else "false"
  | .num q => jsNumToString q
  | .str s => s
  | .arr items =>
      jsJoin ","
        (items.map fun v =>
          match v with
          | .null => ""
          | .bool b => if b then "true" else "false"
          | .num q => jsNumToString q
          | .str s => s
          | .arr _ => "<nested-array>"
          | .obj _ => "[object Object]")
  | .obj _ => "[object Object]"

/-- UTF-16 code units of a scalar value. -/
def utf16Units (c : Char) : List Nat :=
  if c.toNat < 0x10000 then [c.toNat]
  else
    [0xD800 + (c.toNat - 0x10000) / 0x400, 0xDC00 + (c.toNat - 0x10000) % 0x400]

/-- Lexicographic order on code-unit sequences. -/
def natListLt : List Nat → List Nat → Bool
  | [], [] => false
  | [], _ :: _ => true
  | _ :: _, [] => false
  | a :: as, b :: bs => if a < b then true else if b < a then false else natListLt as bs

/-- JS `a < b` on strings: lexicographic by UTF-16 code units. -/
def jsStrLt (a b : String) : Bool :=
  natListLt (a.toList.flatMap utf16Units) (b.toList.flatMap utf16Units)

/-! ### Attribute filters (lines 39-43, 601-751) -/

/-- The filter operators (`"match"` is rendered `matchOp`). -/
inductive FilterOp where
  | gt
  | gte
  | eq
  | lt
  | lte
  | ne
  | matchOp
  deriving DecidableEq

/-- An `AttributeFilter`; `value := none` models a JS `undefined`
comparison value (the TS type says `string | number | boolean`, but the
runtime check also handles `null`/`undefined`). -/
structure AttributeFilter where
  path : String
  operator : FilterOp
  value : Option JsonValue

/-- The `match` operator's comparison (lines 677-716): same wrapper /
auto-detection logic as the text search, falling back to lowercased
substring containment when the regex does not compile. -/
def matchOperator (compile : RegexEngine) (actualStr filterStr : String) : Bool :=
  let wrapper := regexWrapperMatch filterStr
  let isRegex :=
    match wrapper with
    | some _ => true
    | Option.none => isLikelyRegex filterStr
  let searchPattern :=
    match wrapper with
    | some p => p.1
    | Option.none => filterStr
  let regexFlags :=
    match wrapper with
    | some p => if p.2 = "" then "i" else p.2
    | Option.none => "i"
  if isRegex then
    match compile searchPattern regexFlags with
    | some test => test actualStr
    | Option.none =>
        let fallbackPattern :=
          match wrapper with
          | some _ => jsToLower searchPattern
          | Option.none => jsToLower filterStr
        jsIncludes (jsToLower actualStr) fallbackPattern
  else jsIncludes (jsToLower actualStr) (jsToLower filterStr)

/-- `applyAttributeFilter` (lines 601-720). -/
def applyAttributeFilter (compile : RegexEngine) (entry : JsonValue)
    (filter : AttributeFilter) : Bool :=
  let actualValue := getValueByPath entry filter.path
  let filterValue := filter.value
  match actualValue with
  | Option.none =>
      filter.operator = FilterOp.eq &&
      (match filterValue with
       | Option.none => true
       | some .null => true
       | some _ => false)
  | some JsonValue.null =>
      filter.operator = FilterOp.eq &&
      (match filterValue with
       | Option.none => true
       | some .null => true
       | some _ => false)
  | some av =>
      match filter.operator with
      | .eq =>
          match filterValue with
          | some fv => jsStrictEq av fv
          | Option.none => false
      | .ne =>
          match filterValue with
          | some fv => !jsStrictEq av fv
          | Option.none => true
      | .gt =>
          match av, filterValue with
          | .num a, some (.num b) => decide (b < a)
          | .str a, some (.str b) => jsStrLt b a
          | _, _ => false
      | .gte =>
          match av, filterValue with
          | .num a, some (.num b) => decide (b ≤ a)
          | .str a, some (.str b) => !jsStrLt a b
          | _, _ => false
      | .lt =>
          match av, filterValue with
          | .num a, some (.num b) => decide (a < b)
          | .str a, some (.str b) => jsStrLt a b
          | _, _ => false
      | .lte =>
          match av, filterValue with
          | .num a, some (.num b) => decide (a ≤ b)
          | .str a, some (.str b) => !jsStrLt b a
          | _, _ => false
      | .matchOp =>
          let actualStr := jsToString av
          let filterStr :=
            match filterValue with
            | some fv => jsToString fv
            | Option.none => "undefined"
          matchOperator compile actualStr filterStr

/-- `passesAttributeFilters` (lines 744-751): all supplied filters ANDed. -/
def passesAttributeFilters (compile : RegexEngine) (entry : JsonValue)
    (filters : List AttributeFilter) : Bool :=
  filters.all (applyAttributeFilter compile entry)

/-! ### The text-search index (lines 346-390) -/

/-- `TextSearchIndex.extractAllStringFields` (lines 367-390): recursively
flatten every string/number/boolean leaf, guarded by the explicit depth
counter (`depth > 50` returns without descending). -/
def extractAllStringFields (obj : Option JsonValue) (depth : Nat) : List String :=
  if 50 < depth then []
  else
    match obj with
    | Option.none => []
    | some .null => []
    | some (.str s) => [s]
    | some (.num q) => [jsNumToString q]
    | some (.bool b) => [if b then "true" else "false"]
    | some (.arr items) =>
        items.attach.flatMap fun it =>
          match it with
          | ⟨v, _⟩ => extractAllStringFields (some v) (depth + 1)
    | some (.obj fields) =>
        fields.attach.flatMap fun p =>
          match p with
          | ⟨(_, v), _⟩ => extractAllStringFields (some v) (depth + 1)
termination_by sizeOf obj
decreasing_by
  · rename_i hmem
    have := List.sizeOf_lt_of_mem hmem
    simp only [Option.some.sizeOf_spec, JsonValue.arr.sizeOf_spec]
    omega
  · rename_i k hmem
    have h1 := List.sizeOf_lt_of_mem hmem
    simp only [Prod.mk.sizeOf_spec] at h1
    simp only [Option.some.sizeOf_spec, JsonValue.obj.sizeOf_spec]
    omega

/-- `TextSearchIndex.extractSearchableText` plus `buildIndex` (lines
353-365): the lowercased searchable text per entry index, in insertion
order. -/
def buildContentMap (entries : List JsonValue) : List (Nat × String) :=
  entries.enum.map fun p =>
    (p.1, jsToLower (jsJoin " " (extractAllStringFields (some p.2) 0)))

/-! ### The time-range index binary searches (lines 203-249, 301-323) -/

/-- `findFirstIndexAtOrAfter`'s while loop. -/
def ffLoop (getTime : Nat → Int) (targetTime : Int) (left right result : Int) : Int :=
  if h : left ≤ right then
    let mid := Int.fdiv (left + right) 2
    if targetTime ≤ getTime mid.toNat then ffLoop getTime targetTime left (mid - 1) mid
    else ffLoop getTime targetTime (mid + 1) right result
  else result
termination_by (right + 1 - left).toNat
decreasing_by
  all_goals
    simp only [Int.fdiv_eq_ediv _ (by norm_num : (0 : ℤ) ≤ 2)]
    omega

/-- `findLastIndexAtOrBefore`'s while loop. -/
def flLoop (getTime : Nat → Int) (targetTime : Int) (left right result : Int) : Int :=
  if h : left ≤ right then
    let mid := Int.fdiv (left + right) 2
    if getTime mid.toNat ≤ targetTime then flLoop getTime targetTime (mid + 1) right mid
    else flLoop getTime targetTime left (mid - 1) result
  else result
termination_by (right + 1 - left).toNat
decreasing_by
  all_goals
    simp only [Int.fdiv_eq_ediv _ (by norm_num : (0 : ℤ) ≤ 2)]
    omega

/-- The `timestamp` string of a dynamic entry. -/
def entryTimestamp (e : JsonValue) : String :=
  match jsAccess e "timestamp" with
  | some (.str s) => s
  | _ => ""

/-- The `kind` string of a dynamic entry. -/
def entryKind (e : JsonValue) : String :=
  match jsAccess e "kind" with
  | some (.str s) => s
  | _ => ""

/-- `TimeRangeIndex.findEntriesInRange` (lines 301-323): binary search for
the first index at-or-after the start and the last at-or-before the end,
then the contiguous index run. -/
def findEntriesInRange (entries : List JsonValue) (start stop : String) : List Int :=
  let times := entries.map fun e => parseTimestampMs (entryTimestamp e)
  let getTime : Nat → Int := fun i => times.getD i 0
  let n : Int := entries.length
  let startIndex := ffLoop getTime (parseTimestampMs start) 0 (n - 1) n
  let endIndex := flLoop getTime (parseTimestampMs stop) 0 (n - 1) (-1)
  (List.range (endIndex + 1 - startIndex).toNat).map fun k => startIndex + k

/-! ### `searchLogEntries` (lines 1332-1414) -/

/-- The `timeRange` argument; the source's `end` field is rendered
`stop`. -/
structure TimeRange where
  start : String
  stop : String

/-- The `SearchLogEntriesArgs` parameter object; `none` models an omitted
property, `limit`/`offset` default to 100/0. -/
structure SearchLogEntriesArgs where
  query : Option String
  entryKinds : Option (List String)
  timeRange : Option TimeRange
  attributeFilters : Option (List AttributeFilter)
  limit : Option Nat
  offset : Option Nat

/-- A `searchLogEntries({})` call: every property omitted. -/
def emptySearchArgs : SearchLogEntriesArgs :=
  ⟨Option.none, Option.none, Option.none, Option.none, Option.none, Option.none⟩

/-- The `SearchResults` object. -/
structure SearchResults where
  query : String
  matches' : List JsonValue
  totalMatches : Nat
  hasMore : Bool
  error : Option String

/-- The four usability checks of lines 1343-1346. -/
def hasQuery (args : SearchLogEntriesArgs) : Bool :=
  match args.query with
  | some q => 0 < (jsTrim q).length
  | Option.none => false

def hasEntryKinds (args : SearchLogEntriesArgs) : Bool :=
  match args.entryKinds with
  | some l => 0 < l.length
  | Option.none => false

def hasTimeRange (args : SearchLogEntriesArgs) : Bool :=
  match args.timeRange with
  | some tr => tr.start ≠ "" && tr.stop ≠ ""
  | Option.none => false

def hasAttributeFilters (args : SearchLogEntriesArgs) : Bool :=
  match args.attributeFilters with
  | some l => 0 < l.length
  | Option.none => false

/-- The validation-failure message of lines 1349-1356. -/
def searchValidationError : String :=
  "At least one of the following parameters must be provided: query, entryKinds, timeRange, or attributeFilters"

/-- `LogQueryEngine.searchLogEntries` (lines 1332-1414) over the engine's
entry array, with the regex engine abstracted. -/
def searchLogEntries (compile : RegexEngine) (entries : List JsonValue)
    (args : SearchLogEntriesArgs) : SearchResults :=
  let limit := args.limit.getD 100
  let offset := args.offset.getD 0
  if !hasQuery args && !hasEntryKinds args && !hasTimeRange args &&
      !hasAttributeFilters args then
    { query := args.query.getD ""
      matches' := []
      totalMatches := 0
      hasMore := false
      error := some searchValidationError }
  else
    let searchIndices : List Int :=
      if hasQuery args then
        (textSearch compile (buildContentMap entries) (args.query.getD "")).map
          fun i => (i : Int)
      else (List.range entries.length).map fun i => (i : Int)
    let searchIndices :=
      if hasTimeRange args then
        let tr := (args.timeRange.getD ⟨"", ""⟩)
        let timeRangeIndices := findEntriesInRange entries tr.start tr.stop
        searchIndices.filter fun i => timeRangeIndices.contains i
      else searchIndices
    let searchIndices :=
      if hasEntryKinds args then
        searchIndices.filter fun i =>
          let kind := entryKind (entries.getD i.toNat JsonValue.null)
          (args.entryKinds.getD []).any fun filterKind =>
            kind = filterKind || jsIncludes kind filterKind
      else searchIndices
    let searchIndices :=
      if hasAttributeFilters args then
        searchIndices.filter fun i =>
          passesAttributeFilters compile (entries.getD i.toNat JsonValue.null)
            (args.attributeFilters.getD [])
      else searchIndices
    let totalMatches := searchIndices.length
    let paginatedIndices := (searchIndices.drop offset).take limit
    { query := args.query.getD ""
      matches' := paginatedIndices.map fun i => entries.getD i.toNat JsonValue.null
      totalMatches := totalMatches
      hasMore := offset + limit < totalMatches
      error := Option.none }

/-! ## Timestamp monotonicity: definitions -/

/-- The instant of an event's timestamp. -/
def tsOf (e : SemanticLogInfo) : Int := parseTimestampMs e.timestamp

/-- The non-decreasing-timestamp relation between two events. -/
def tsLe (a b : SemanticLogInfo) : Prop := tsOf a ≤ tsOf b

instance : IsTrans SemanticLogInfo tsLe :=
  ⟨fun _ _ _ h1 h2 => le_trans h1 h2⟩

/-- Timestamps monotonically non-decreasing across a sequence (for every
adjacent pair, compared as instants). -/
def TsMono (l : List SemanticLogInfo) : Prop :=
  List.Chain' (fun a b => tsOf a ≤ tsOf b) l

/-- Whether the next event would be merged with the pending request by
`DetectBackgroundRSSICalls` (the branch of lines 820-849). -/
def isMergeCase (st : DetectState) (c : SemanticLogInfo) : Bool :=
  !isBgRequest c &&
  (match st.pendingRequest with
   | some p =>
       decide (parseTimestampMs c.timestamp - parseTimestampMs p.timestamp ≤ 200) &&
       isBgResponse c
   | Option.none => false)

/-- A run of the RSSI call merger is *clean* when every merge happens with
an empty buffer (no events arrived between the request and its matching
response). -/
def cleanMergeRun : DetectState → List SemanticLogInfo → Bool
  | _, [] => true
  | st, c :: cs =>
      (!(isMergeCase st c) || st.bufferedEntries.isEmpty) &&
      cleanMergeRun (detectStep st c).1 cs

/-- The timestamp instant of a complete record string, as the unformatter
reads it (`none` when the first line carries no stamp and the record would
be dropped). -/
def recordTs (r : String) : Option Int :=
  match jsSplit r '\n' with
  | [] => Option.none
  | firstLine :: _ =>
      if timestampTest firstLine then some (parseTimestampMs (jsTake firstLine 23))
      else Option.none

/-! ## Concrete inputs used by counterexamples and witnesses -/

/-- A three-record log: a `GetBackgroundRSSI` request, an unrelated
outbound request 50 ms later, and the matching response 100 ms after the
request. -/
def interleavedRssiText : String :=
  "2024-01-01 00:00:00.000 DRIVER » [REQ] [GetBackgroundRSSI]\n" ++
  "2024-01-01 00:00:00.050 DRIVER » [REQ] [Foo]\n" ++
  "2024-01-01 00:00:00.100 DRIVER « [RES] [GetBackgroundRSSI]\n" ++
  "                                   channel 0: -100 dBm\n" ++
  "                                   channel 1: -98 dBm\n"

/-- The same log without the interleaved `[Foo]` request: the response
follows the request directly, so the merge happens with an empty buffer. -/
def cleanRssiText : String :=
  "2024-01-01 00:00:00.000 DRIVER » [REQ] [GetBackgroundRSSI]\n" ++
  "2024-01-01 00:00:00.100 DRIVER « [RES] [GetBackgroundRSSI]\n" ++
  "                                   channel 0: -100 dBm\n" ++
  "                                   channel 1: -98 dBm\n"

/-- The classified `GetBackgroundRSSI` request event of that log. -/
def bgReqEvent : SemanticLogInfo :=
  .request "2024-01-01 00:00:00.000" .outbound (.str "[GetBackgroundRSSI]")
    Option.none Option.none

/-- The unrelated outbound request between request and response. -/
def fooEvent : SemanticLogInfo :=
  .request "2024-01-01 00:00:00.050" .outbound (.str "[Foo]")
    Option.none Option.none

/-- The classified matching response event. -/
def bgRespEvent : SemanticLogInfo :=
  .response "2024-01-01 00:00:00.100" .inbound
    (.payload (.mk "GetBackgroundRSSI"
      (some [("channel 0", .str "-100 dBm"), ("channel 1", .str "-98 dBm")])
      Option.none))
    Option.none Option.none

/-- A two-record log with no trailing newline. -/
def twoRecordText : String :=
  "2024-01-01 00:00:00.000 DRIVER a\n2024-01-01 00:00:00.001 DRIVER b"

/-- The same two-record log terminated by a trailing newline. -/
def twoRecordTextNl : String := twoRecordText ++ "\n"

/-- A semantic event (as the query engine's JS object) whose payload holds
an `attributes` sub-object with the field `x`. -/
def c8Entry : JsonValue :=
  .obj [("kind", .str "OTHER"),
        ("payload", .obj [("attributes", .obj [("x", .str "OK")])])]

/-- Three consecutive background-RSSI readings with channel-0 values
-90, -95, -85 dBm. -/
def rssiRun3 : List SemanticLogInfo :=
  [.backgroundRSSI "2024-01-01 00:00:00.000" (some (.str "-90 dBm")) Option.none
      Option.none Option.none,
   .backgroundRSSI "2024-01-01 00:00:01.000" (some (.str "-95 dBm")) Option.none
      Option.none Option.none,
   .backgroundRSSI "2024-01-01 00:00:02.000" (some (.str "-85 dBm")) Option.none
      Option.none Option.none]

/-- Nesting depth of a payload tree. -/
def payloadDepth : LogInfoPayload → Nat
  | .mk _ _ (some n) => payloadDepth n + 1
  | .mk _ _ Option.none => 1

/-- Nesting depth of an optional payload. -/
def optPayloadDepth : Option LogInfoPayload → Nat
  | some p => payloadDepth p
  | Option.none => 0

/-- A frame-within-frame block nested `n + 1` levels deep: a header line
followed by `n` corner-branch lines, each indented two more columns. -/
def deepLines (n : Nat) : List String :=
  "[x]" :: (List.range n).map fun k =>
    String.mk (List.replicate (2 * k) ' ') ++ "└─[x]"

/-- The statistics block of one channel of a summary event. -/
def summaryChannel (e : SemanticLogInfo) (key : String) : Option ChannelStats :=
  match e with
  | .backgroundRSSISummary _ _ _ _ chs =>
      (chs.find? (fun p => p.1 = key)).map Prod.snd
  | _ => Option.none

/-- Whether the value-event sub-branches of the classifier fire: the
marker-tag dispatch together with the inner command-class truthiness and
message-parse checks that guard each `enqueue`. -/
def valueBranchSucceeds (chunk : UnformattedLogInfo) : Bool :=
  match chunk.message with
  | .str m =>
      let tags := chunk.primaryTags.getD []
      if tags.contains "+" then
        match tags.reverse.find? (fun t => t ≠ "+"), parseValueAddedMessage m with
        | some cc, some _ => cc ≠ ""
        | _, _ => false
      else if tags.contains "~" then
        match tags.reverse.find? (fun t => t ≠ "~"), parseValueUpdatedMessage m with
        | some cc, some _ => cc ≠ ""
        | _, _ => false
      else if tags.contains "-" then
        match tags.reverse.find? (fun t => t ≠ "-"), parseValueRemovedMessage m with
        | some cc, some _ => cc ≠ ""
        | _, _ => false
      else if tags.length = 2 then (parseMetadataUpdatedMessage m).isSome
      else false
  | .payload _ => false

/-- Whether any classifier pattern (in priority order) matches a record;
`false` means the record falls through to the catch-all `Other` branch. -/
def matchesSomePattern (chunk : UnformattedLogInfo) : Bool :=
  condIncomingCommand chunk || condSendDataRequest chunk ||
  condSendDataResponse chunk || condSendDataCallback chunk ||
  (genericKind chunk).isSome ||
  (condValueBase chunk && valueBranchSucceeds chunk)

/-! # Theorems for the claims -/

/-! ## C6 -/

/-- C6: `searchLogEntries` called with none of the four filter dimensions
usable (no non-blank query, no non-empty `entryKinds`, no `timeRange` with
both bounds, no non-empty `attributeFilters`) returns a result with an
empty `matches` array, `totalMatches` 0, `hasMore` false, and a non-empty
`error` string (it is a total function of its arguments — nothing is
thrown). -/
theorem searchLogEntries_rejects_empty_filters (compile : RegexEngine)
    (entries : List JsonValue) (args : SearchLogEntriesArgs)
    (h1 : hasQuery args = false) (h2 : hasEntryKinds args = false)
    (h3 : hasTimeRange args = false) (h4 : hasAttributeFilters args = false) :
    searchLogEntries compile entries args =
      { query := args.query.getD ""
        matches' := []
        totalMatches := 0
        hasMore := false
        error := some searchValidationError } ∧
    searchValidationError ≠ "" := by
  refine ⟨?_, by decide⟩
  unfold searchLogEntries
  rw [h1, h2, h3, h4]
  rfl

/-- Witness for C6: the literal `searchLogEntries({})` call on an engine
with one entry. -/
theorem searchLogEntries_rejects_empty_filters_witness :
    searchLogEntries (fun _ _ => Option.none) [JsonValue.obj []] emptySearchArgs =
      { query := ""
        matches' := []
        totalMatches := 0
        hasMore := false
        error := some searchValidationError } ∧
    searchValidationError ≠ "" :=
  searchLogEntries_rejects_empty_filters (fun _ _ => Option.none)
    [JsonValue.obj []] emptySearchArgs rfl rfl rfl rfl

/-! ## C10 -/

/-- C10: whenever the dot-path of an attribute filter resolves to
`undefined` or `null` on an event, the filter matches iff its operator is
`eq` and its comparison value is `null` or `undefined`; in particular
`ne`, `match` and the ordering operators never match an absent field. -/
theorem applyAttributeFilter_absent_value (compile : RegexEngine)
    (entry : JsonValue) (filter : AttributeFilter)
    (h : getValueByPath entry filter.path = Option.none ∨
         getValueByPath entry filter.path = some JsonValue.null) :
    applyAttributeFilter compile entry filter = true ↔
      (filter.operator = FilterOp.eq ∧
        (filter.value = Option.none ∨ filter.value = some JsonValue.null)) := by
  have hbranch :
      ∀ fv : Option JsonValue,
        ((match fv with
          | Option.none => true
          | some JsonValue.null => true
          | some _ => false) = true ↔ (fv = Option.none ∨ fv = some JsonValue.null)) := by
    intro fv
    match fv with
    | Option.none => simp
    | some JsonValue.null => simp
    | some (.bool b) => simp
    | some (.num q) => simp
    | some (.str s) => simp
    | some (.arr l) => simp
    | some (.obj l) => simp
  rcases h with h | h <;>
    · unfold applyAttributeFilter
      rw [h]
      simp only [Bool.and_eq_true, decide_eq_true_eq]
      exact and_congr Iff.rfl (hbranch filter.value)

/-- Witness for C10: on an event without field `x`, a `ne 5` filter on `x`
does not match, while an `eq null` filter does. -/
theorem applyAttributeFilter_absent_value_witness :
    (applyAttributeFilter (fun _ _ => Option.none) (JsonValue.obj [])
        ⟨"x", FilterOp.ne, some (JsonValue.num 5)⟩ = true ↔
      (FilterOp.ne = FilterOp.eq ∧
        (some (JsonValue.num 5) = (Option.none : Option JsonValue) ∨
          some (JsonValue.num 5) = some JsonValue.null))) ∧
    (applyAttributeFilter (fun _ _ => Option.none) (JsonValue.obj [])
        ⟨"x", FilterOp.eq, some JsonValue.null⟩ = true ↔
      (FilterOp.eq = FilterOp.eq ∧
        ((some JsonValue.null : Option JsonValue) = Option.none ∨
          (some JsonValue.null : Option JsonValue) = some JsonValue.null))) :=
  ⟨applyAttributeFilter_absent_value (fun _ _ => Option.none) (JsonValue.obj [])
      ⟨"x", FilterOp.ne, some (JsonValue.num 5)⟩ (Or.inl (by rfl)),
    applyAttributeFilter_absent_value (fun _ _ => Option.none) (JsonValue.obj [])
      ⟨"x", FilterOp.eq, some JsonValue.null⟩ (Or.inl (by rfl))⟩

/-! ## C7 -/

/-- C7: in the text search and in the attribute `match` filter, whenever
the query is treated as a regular expression — forced by an explicit
`/pattern/flags` wrapper or auto-detected by the heuristic — and the
pattern does not compile, the operation degrades to case-insensitive
literal substring matching on the raw pattern text (the inner pattern for
a wrapper, the whole query otherwise) instead of failing. -/
theorem invalid_regex_falls_back_to_substring (compile : RegexEngine)
    (contentMap : List (Nat × String)) (query pat fl : String)
    (actualStr filterStr : String) :
    ((regexWrapperMatch query = some (pat, fl)) →
      compile pat (if fl = "" then "i" else fl) = Option.none →
      textSearch compile contentMap query =
        (contentMap.filter fun p => jsIncludes p.2 (jsToLower pat)).map Prod.fst) ∧
    (regexWrapperMatch query = Option.none → isLikelyRegex query = true →
      compile query "i" = Option.none →
      textSearch compile contentMap query =
        (contentMap.filter fun p => jsIncludes p.2 (jsToLower query)).map Prod.fst) ∧
    ((regexWrapperMatch filterStr = some (pat, fl)) →
      compile pat (if fl = "" then "i" else fl) = Option.none →
      matchOperator compile actualStr filterStr =
        jsIncludes (jsToLower actualStr) (jsToLower pat)) ∧
    (regexWrapperMatch filterStr = Option.none → isLikelyRegex filterStr = true →
      compile filterStr "i" = Option.none →
      matchOperator compile actualStr filterStr =
        jsIncludes (jsToLower actualStr) (jsToLower filterStr)) := by
  refine ⟨?_, ?_, ?_, ?_⟩
  · intro hw hc
    unfold textSearch
    rw [hw]
    simp [hc]
  · intro hw hl hc
    unfold textSearch
    rw [hw, hl]
    simp [hc]
  · intro hw hc
    unfold matchOperator
    rw [hw]
    simp [hc]
  · intro hw hl hc
    unfold matchOperator
    rw [hw, hl]
    simp [hc]

/-- Witness for C7: the invalid explicit pattern `/a[b/` (unterminated
character class) and the invalid auto-detected pattern `ab*(` (unmatched
group) both fall back to substring search; evaluated on a concrete
two-entry content map and on the `match` operator. -/
theorem invalid_regex_falls_back_to_substring_witness :
    textSearch (fun _ _ => Option.none) [(0, "xy a[b z"), (1, "c")] "/a[b/" = [0] ∧
    textSearch (fun _ _ => Option.none) [(0, "x ab*( z"), (1, "c")] "ab*(" = [0] ∧
    matchOperator (fun _ _ => Option.none) "XY A[B z" "/a[b/" = true ∧
    matchOperator (fun _ _ => Option.none) "no such thing" "ab*(" = false := by
  have h1 := (invalid_regex_falls_back_to_substring (fun _ _ => Option.none)
    [(0, "xy a[b z"), (1, "c")] "/a[b/" "a[b" "" "XY A[B z" "/a[b/").1
    (by decide) rfl
  have h2 := (invalid_regex_falls_back_to_substring (fun _ _ => Option.none)
    [(0, "x ab*( z"), (1, "c")] "ab*(" "ab*(" "" "no such thing" "ab*(").2.1
    (by decide) (by decide) rfl
  have h3 := (invalid_regex_falls_back_to_substring (fun _ _ => Option.none)
    [] "/a[b/" "a[b" "" "XY A[B z" "/a[b/").2.2.1
    (by decide) rfl
  have h4 := (invalid_regex_falls_back_to_substring (fun _ _ => Option.none)
    [] "ab*(" "ab*(" "" "no such thing" "ab*(").2.2.2
    (by decide) (by decide) rfl
  refine ⟨?_, ?_, ?_, ?_⟩
  · rw [h1]; decide
  · rw [h2]; decide
  · rw [h3]; decide
  · rw [h4]; decide

/-! ## C1 (counterexample) -/

/-- Counterexample to C1 as stated: on a log whose three records are in
strictly increasing timestamp order, the full pipeline emits the event
buffered between a `GetBackgroundRSSI` request and its response *before*
the synthetic event stamped with the request's earlier timestamp, so the
output instants are `[T+50ms, T]` — not monotonically non-decreasing. -/
theorem pipeline_timestamps_not_monotone :
    (processLogContent interleavedRssiText).map tsOf =
      [1704067200050, 1704067200000] ∧
    ¬ TsMono (processLogContent interleavedRssiText) := by
  have h : (processLogContent interleavedRssiText).map tsOf =
      [1704067200050, 1704067200000] := by
    with_unfolding_all decide
  refine ⟨h, fun hmono => ?_⟩
  have h2 : List.Chain' (fun a b : Int => a ≤ b)
      ((processLogContent interleavedRssiText).map tsOf) :=
    (List.chain'_map tsOf).mpr hmono
  rw [h] at h2
  have := List.Chain'.rel_head h2
  omega

/-! ## C2 -/

/-- Counterexample to C2 as stated: the event buffered between the request
and the matching (within 200 ms) response is *not* discarded — the merger
emits it, followed by the synthetic entry. -/
theorem rssi_merge_emits_buffered_events :
    detectBackgroundRSSICalls [bgReqEvent, fooEvent, bgRespEvent] =
      [fooEvent,
        .backgroundRSSI "2024-01-01 00:00:00.000" (some (.str "-100 dBm"))
          (some (.str "-98 dBm")) Option.none Option.none] ∧
    fooEvent ∈ detectBackgroundRSSICalls [bgReqEvent, fooEvent, bgRespEvent] := by
  have h : detectBackgroundRSSICalls [bgReqEvent, fooEvent, bgRespEvent] =
      [fooEvent,
        .backgroundRSSI "2024-01-01 00:00:00.000" (some (.str "-100 dBm"))
          (some (.str "-98 dBm")) Option.none Option.none] := by
    with_unfolding_all decide
  exact ⟨h, by rw [h]; exact List.mem_cons_self _ _⟩

/-- C2 as amended: when the matching inbound response (with channel
attributes) arrives within 200 ms of the pending request, the merger
emits the buffered events in order (they are flushed, not discarded),
followed by exactly one synthetic `BACKGROUND_RSSI` event stamped with the
request's timestamp, whose channel 0/1 readings come from the response
attributes and whose channels 2/3 are included only when present and
truthy; the pending request itself is not emitted and the state is
cleared. -/
theorem detect_merge_step_spec (st : DetectState) (p c : SemanticLogInfo)
    (hp : st.pendingRequest = some p)
    (hreq : isBgRequest c = false)
    (hresp : isBgResponse c = true)
    (htime : parseTimestampMs c.timestamp - parseTimestampMs p.timestamp ≤ 200) :
    detectStep st c =
      (⟨Option.none, []⟩,
        st.bufferedEntries ++ [mkMergedEntry p (bgResponseAttrs c)]) ∧
    (mkMergedEntry p (bgResponseAttrs c)).timestamp = p.timestamp ∧
    (mkMergedEntry p (bgResponseAttrs c)).kind = "BACKGROUND_RSSI" ∧
    mkMergedEntry p (bgResponseAttrs c) =
      .backgroundRSSI p.timestamp
        (jsGet (bgResponseAttrs c) "channel 0")
        (jsGet (bgResponseAttrs c) "channel 1")
        (match jsGet (bgResponseAttrs c) "channel 2" with
         | some v => if v.truthy then some v else Option.none
         | Option.none => Option.none)
        (match jsGet (bgResponseAttrs c) "channel 3" with
         | some v => if v.truthy then some v else Option.none
         | Option.none => Option.none) := by
  refine ⟨?_, rfl, rfl, rfl⟩
  unfold detectStep
  rw [hreq, hp]
  simp only [Bool.false_eq_true, if_false, hresp, if_true,
    show ¬ (200 < parseTimestampMs c.timestamp - parseTimestampMs p.timestamp) by omega,
    if_false]

/-- Witness for C2's amended theorem: the concrete merge of the
interleaved scenario. -/
theorem detect_merge_step_spec_witness :
    detectStep ⟨some bgReqEvent, [fooEvent]⟩ bgRespEvent =
      (⟨Option.none, []⟩,
        [fooEvent, mkMergedEntry bgReqEvent (bgResponseAttrs bgRespEvent)]) ∧
    (mkMergedEntry bgReqEvent (bgResponseAttrs bgRespEvent)).timestamp =
      bgReqEvent.timestamp :=
  ⟨(detect_merge_step_spec ⟨some bgReqEvent, [fooEvent]⟩ bgReqEvent bgRespEvent rfl
      (by with_unfolding_all decide) (by with_unfolding_all decide)
      (by with_unfolding_all decide)).1,
    (detect_merge_step_spec ⟨some bgReqEvent, [fooEvent]⟩ bgReqEvent bgRespEvent rfl
      (by with_unfolding_all decide) (by with_unfolding_all decide)
      (by with_unfolding_all decide)).2.1⟩

/-! ## C9 -/

set_option maxRecDepth 100000 in
/-- Counterexample to C9 as stated: the nested-structure parser has no
depth guard — on a block nested 60 levels deep it produces a payload of
depth 60, which no recursion capped at 50 levels could build. -/
theorem nested_parser_exceeds_depth_50 :
    optPayloadDepth (parseNestedStructure (deepLines 59)) = 60 ∧
    50 < optPayloadDepth (parseNestedStructure (deepLines 59)) := by
  have h : optPayloadDepth (parseNestedStructure (deepLines 59)) = 60 := by
    with_unfolding_all decide
  exact ⟨h, by omega⟩

/-- C9 as amended: only the recursive flattening of event fields
(`extractAllStringFields`) carries the explicit depth guard capped at 50
levels (beyond it, nothing is collected); the nested-structure parser has
no depth guard — its recursion is bounded by the input itself, every
recursive call consuming at least one line, so the nesting depth of its
output never exceeds the number of input lines. -/
theorem depth_guard_spec :
    (∀ (v : Option JsonValue) (d : Nat), 50 < d → extractAllStringFields v d = []) ∧
    (∀ lines : List String,
      optPayloadDepth (parseNestedStructure lines) ≤ lines.length) := by
  constructor
  · intro v d h
    rw [extractAllStringFields.eq_def]
    simp [h]
  · have hF : ∀ (fuel : Nat) (lines : List String),
        optPayloadDepth (parseNestedStructureF fuel lines) ≤ lines.length := by
      intro fuel
      induction fuel with
      | zero => intro lines; simp [parseNestedStructureF, optPayloadDepth]
      | succ n ih =>
        intro lines
        match lines with
        | [] => simp [parseNestedStructureF, optPayloadDepth]
        | msg :: rest =>
          rw [parseNestedStructureF.eq_def]
          simp only
          split
          · match hcol : (collectAttrs rest []).2 with
            | some nl =>
                have hle := collectAttrs_nested_le rest [] nl (by rw [hcol])
                have hrec := ih nl
                simp only [hcol, optPayloadDepth, payloadDepth]
                match hres : parseNestedStructureF n nl with
                | some p =>
                    rw [hres] at hrec
                    simp only [optPayloadDepth] at hrec
                    simp only [payloadDepth, List.length_cons]
                    omega
                | Option.none =>
                    simp only [payloadDepth, List.length_cons]
                    omega
            | Option.none =>
                simp only [hcol, optPayloadDepth, payloadDepth, List.length_cons]
                omega
          · simp [optPayloadDepth]
    intro lines
    exact hF (lines.length + 1) lines

/-- Witness for C9's amended theorem: a depth-51 flattening call collects
nothing, and the depth bound evaluated on the 60-level block. -/
theorem depth_guard_spec_witness :
    extractAllStringFields (some (JsonValue.str "leaf")) 51 = [] ∧
    optPayloadDepth (parseNestedStructure (deepLines 59)) ≤ (deepLines 59).length :=
  ⟨depth_guard_spec.1 (some (JsonValue.str "leaf")) 51 (by decide),
    depth_guard_spec.2 (deepLines 59)⟩

/-! ## C5 -/

/-- C5: the aggregator's flush emits at most two buffered readings
unchanged, and more than two as exactly one summary stamped with the first
buffered entry's timestamp; on the concrete run -90, -95, -85 dBm the
channel-0 statistics are median -90, min -95 (at the second reading's
time), max -85 (at the third's), and population standard deviation 4.08
(rounded to 2 decimals). -/
theorem aggregator_flush_spec :
    (∀ buf : List SemanticLogInfo, buf ≠ [] → buf.length ≤ 2 → aggFlush buf = buf) ∧
    (∀ (a : SemanticLogInfo) (buf : List SemanticLogInfo),
        2 < (a :: buf).length →
        aggFlush (a :: buf) = [aggregateRSSIEntries (a :: buf)] ∧
        (aggregateRSSIEntries (a :: buf)).timestamp = a.timestamp ∧
        (aggregateRSSIEntries (a :: buf)).kind = "BACKGROUND_RSSI_SUMMARY") ∧
    (aggFlush rssiRun3 = [aggregateRSSIEntries rssiRun3] ∧
      summaryChannel (aggregateRSSIEntries rssiRun3) "channel 0" =
        some ⟨⟨some (-95), "2024-01-01 00:00:01.000"⟩,
              ⟨some (-85), "2024-01-01 00:00:02.000"⟩,
              some (-90), some (408 / 100)⟩ ∧
      (aggregateRSSIEntries rssiRun3).timestamp = "2024-01-01 00:00:00.000") := by
  refine ⟨?_, ?_, ?_, ?_, ?_⟩
  · intro buf h1 h2
    unfold aggFlush
    rw [if_neg (by simpa using h1), if_pos h2]
  · intro a buf h
    simp only [List.length_cons] at h
    refine ⟨?_, rfl, rfl⟩
    unfold aggFlush
    rw [if_neg (by simp), if_neg (by simp only [List.length_cons, not_le]; omega)]
  · with_unfolding_all decide
  · with_unfolding_all decide
  · with_unfolding_all decide

/-- Witness for C5: the general parts applied to a two-reading buffer (no
summary) and to the three-reading run. -/
theorem aggregator_flush_spec_witness :
    aggFlush (rssiRun3.take 2) = rssiRun3.take 2 ∧
    aggFlush rssiRun3 = [aggregateRSSIEntries rssiRun3] := by
  constructor
  · exact aggregator_flush_spec.1 (rssiRun3.take 2) (by with_unfolding_all decide)
      (by with_unfolding_all decide)
  · exact (aggregator_flush_spec.2.1
      (rssiRun3.headD (.sendDataResponse "" false)) (rssiRun3.tail)
      (by with_unfolding_all decide)).1

/-! ## C3 -/

/-- C3: the classifier is total and one-to-one on surviving records —
every record yields exactly one semantic event (never zero, never more
than one, the patterns being tried in the fixed priority order of the
definition), and a record matching no pattern becomes an `Other` event
that retains every original field of the record (it carries the whole
record). -/
theorem classify_exactly_one (chunk : UnformattedLogInfo) :
    (classifyList chunk).length = 1 ∧
    (matchesSomePattern chunk = false →
      classifyList chunk = [SemanticLogInfo.other chunk]) := by
  constructor
  · unfold classifyList
    all_goals repeat (first | rfl | split | dsimp only [])
  · intro h
    unfold matchesSomePattern at h
    simp only [Bool.or_eq_false_iff, Bool.and_eq_false_iff] at h
    obtain ⟨⟨⟨⟨⟨h1, h2⟩, h3⟩, h4⟩, h5⟩, h6⟩ := h
    have h5' : genericKind chunk = Option.none := by
      cases hg : genericKind chunk
      · rfl
      · rw [hg] at h5; simp at h5
    unfold classifyList
    rw [h1, h2, h3, h4, h5']
    simp only [Bool.false_eq_true, if_false]
    rcases h6 with h6 | h6
    · rw [h6]
      simp only [Bool.false_eq_true, if_false]
    · cases hm : chunk.message with
      | payload p =>
          by_cases hb : condValueBase chunk = true
          · exfalso
            unfold condValueBase at hb
            rw [hm] at hb
            simp at hb
          · simp only [Bool.not_eq_true] at hb
            rw [hb]
            simp only [Bool.false_eq_true, if_false]
      | str m =>
          by_cases hb : condValueBase chunk = true
          · rw [hb]
            simp only [if_true]
            unfold valueBranchSucceeds at h6
            rw [hm] at h6
            simp only at h6
            by_cases hplus : (chunk.primaryTags.getD []).contains "+" = true
            · simp only [hplus, if_true] at h6 ⊢
              cases hfind : (chunk.primaryTags.getD []).reverse.find?
                  (fun t => t ≠ "+") with
              | none => cases hp : parseValueAddedMessage m <;> simp_all
              | some cc =>
                  cases hp : parseValueAddedMessage m with
                  | none => simp_all
                  | some parsed => simp_all
            · simp only [Bool.not_eq_true] at hplus
              simp only [hplus, Bool.false_eq_true, if_false] at h6 ⊢
              by_cases htil : (chunk.primaryTags.getD []).contains "~" = true
              · simp only [htil, if_true] at h6 ⊢
                cases hfind : (chunk.primaryTags.getD []).reverse.find?
                    (fun t => t ≠ "~") with
                | none => cases hp : parseValueUpdatedMessage m <;> simp_all
                | some cc =>
                    cases hp : parseValueUpdatedMessage m with
                    | none => simp_all
                    | some parsed => simp_all
              · simp only [Bool.not_eq_true] at htil
                simp only [htil, Bool.false_eq_true, if_false] at h6 ⊢
                by_cases hmin : (chunk.primaryTags.getD []).contains "-" = true
                · simp only [hmin, if_true] at h6 ⊢
                  cases hfind : (chunk.primaryTags.getD []).reverse.find?
                      (fun t => t ≠ "-") with
                  | none => cases hp : parseValueRemovedMessage m <;> simp_all
                  | some cc =>
                      cases hp : parseValueRemovedMessage m with
                      | none => simp_all
                      | some parsed => simp_all
                · simp only [Bool.not_eq_true] at hmin
                  simp only [hmin, Bool.false_eq_true, if_false] at h6 ⊢
                  by_cases hlen : (chunk.primaryTags.getD []).length = 2
                  · simp only [hlen, if_true] at h6 ⊢
                    cases hp : parseMetadataUpdatedMessage m with
                    | none => simp_all
                    | some parsed => simp_all
                  · simp only [hlen, if_false]
          · simp only [Bool.not_eq_true] at hb
            rw [hb]
            simp only [Bool.false_eq_true, if_false]

/-- Witness for C3's conditional part: a record matching no pattern (an
undirected CNTRLR line with no node tag) classifies to the `Other` event
carrying the whole record. -/
theorem classify_exactly_one_witness :
    matchesSomePattern
      ⟨"2024-01-01 00:00:00.000", "CNTRLR", Direction.none, .str "hello",
        Option.none, Option.none⟩ = false ∧
    classifyList
      ⟨"2024-01-01 00:00:00.000", "CNTRLR", Direction.none, .str "hello",
        Option.none, Option.none⟩ =
      [SemanticLogInfo.other
        ⟨"2024-01-01 00:00:00.000", "CNTRLR", Direction.none, .str "hello",
          Option.none, Option.none⟩] :=
  ⟨by with_unfolding_all decide,
    (classify_exactly_one
      ⟨"2024-01-01 00:00:00.000", "CNTRLR", Direction.none, .str "hello",
        Option.none, Option.none⟩).2 (by with_unfolding_all decide)⟩

/-! ## C4: the entry-boundary splitter

Supporting lemmas about `List.getLast!`, `List.intercalate`,
`startIndizes` and the slice partition used by `enqueueCompleteEntries`. -/

theorem lastBang_singleton {α} [Inhabited α] (a : α) :
    ([a] : List α).getLast! = a := by
  simp [List.getLast!]

theorem lastBang_cons_cons {α} [Inhabited α] (a b : α) (t : List α) :
    (a :: b :: t).getLast! = (b :: t).getLast! := by
  simp [List.getLast!, List.getLast]

theorem lastBang_eq_getLast {α} [Inhabited α] :
    ∀ (l : List α) (h : l ≠ []), l.getLast! = l.getLast h
  | [], h => absurd rfl h
  | [a], _ => lastBang_singleton a
  | a :: b :: t, _ => by
      rw [lastBang_cons_cons, lastBang_eq_getLast (b :: t) (by simp)]
      simp [List.getLast]

theorem lastBang_mem {α} [Inhabited α] (l : List α) (h : l ≠ []) :
    l.getLast! ∈ l := by
  rw [lastBang_eq_getLast l h]; exact List.getLast_mem h

theorem dropLast_append_lastBang {α} [Inhabited α] (l : List α) (h : l ≠ []) :
    l.dropLast ++ [l.getLast!] = l := by
  rw [lastBang_eq_getLast l h]; exact List.dropLast_append_getLast h

theorem chainLt_head_le :
    ∀ (a : Nat) (l : List Nat), List.Chain' (· < ·) (a :: l) →
      ∀ x ∈ a :: l, a ≤ x
  | _, [], _, x, hx => by simp at hx; omega
  | a, b :: t, h, x, hx => by
      rcases List.mem_cons.mp hx with rfl | hx'
      · exact Nat.le_refl x
      · have hab : a < b := (List.chain'_cons.mp h).1
        have hb := chainLt_head_le b t (List.chain'_cons.mp h).2 x hx'
        omega

theorem chainLt_le_lastBang :
    ∀ (l : List Nat), List.Chain' (· < ·) l → ∀ x ∈ l, x ≤ l.getLast!
  | [], _, x, hx => absurd hx (List.not_mem_nil x)
  | [a], _, x, hx => by
      simp at hx; rw [lastBang_singleton]; omega
  | a :: b :: t, h, x, hx => by
      rw [lastBang_cons_cons]
      rcases List.mem_cons.mp hx with rfl | hx'
      · have hab : x < b := (List.chain'_cons.mp h).1
        have hb := chainLt_le_lastBang (b :: t) (List.chain'_cons.mp h).2 b
          (List.mem_cons_self b t)
        omega
      · exact chainLt_le_lastBang (b :: t) (List.chain'_cons.mp h).2 x hx'

theorem zipTail_rel {R : Nat → Nat → Prop} :
    ∀ (l : List Nat), List.Chain' R l → ∀ p ∈ l.zip l.tail, R p.1 p.2
  | [], _, _, hp => absurd hp (by simp)
  | [_], _, _, hp => absurd hp (by simp)
  | a :: b :: t, h, p, hp => by
      simp only [List.tail_cons, List.zip_cons_cons] at hp
      rcases List.mem_cons.mp hp with rfl | hp'
      · exact (List.chain'_cons.mp h).1
      · exact zipTail_rel (b :: t) (List.chain'_cons.mp h).2 p hp'

theorem interc_cons_cons {α} (sep a b : List α) (t : List (List α)) :
    List.intercalate sep (a :: b :: t) =
      a ++ sep ++ List.intercalate sep (b :: t) := by
  simp [List.intercalate, List.intersperse]

theorem interc_single {α} (sep a : List α) : List.intercalate sep [a] = a := by
  simp [List.intercalate, List.intersperse]

theorem interc_append {α} (sep : List α) :
    ∀ (xs ys : List (List α)), xs ≠ [] → ys ≠ [] →
    List.intercalate sep (xs ++ ys) =
      List.intercalate sep xs ++ sep ++ List.intercalate sep ys
  | [], _, hx, _ => absurd rfl hx
  | [a], y :: yt, _, _ => by
      rw [List.singleton_append, interc_cons_cons, interc_single]
  | a :: b :: t, y :: yt, _, _ => by
      have ih := interc_append sep (b :: t) (y :: yt) (by simp) (by simp)
      simp only [List.cons_append] at ih ⊢
      rw [interc_cons_cons, ih, interc_cons_cons]
      simp [List.append_assoc]

theorem interc_flatten_map {α} (sep : List α) :
    ∀ (parts : List (List (List α))), (∀ p ∈ parts, p ≠ []) →
    List.intercalate sep (parts.map (List.intercalate sep)) =
      List.intercalate sep parts.flatten
  | [], _ => by simp [List.intercalate]
  | [p], _ => by simp [interc_single]
  | p :: q :: t, h => by
      have ih := interc_flatten_map sep (q :: t)
        (fun x hx => h x (List.mem_cons_of_mem p hx))
      have hfl : (q :: t).flatten ≠ [] := by
        intro hc
        rw [List.flatten_cons] at hc
        exact h q (by simp) (List.append_eq_nil.mp hc).1
      simp only [List.map_cons]
      rw [interc_cons_cons]
      have hmid : List.intercalate sep
          (List.intercalate sep q :: List.map (List.intercalate sep) t) =
          List.intercalate sep (q :: t).flatten := by
        simpa only [List.map_cons] using ih
      rw [hmid]
      conv_rhs =>
        rw [List.flatten_cons,
          interc_append sep p (q :: t).flatten (h p (by simp)) hfl]

theorem startsSpec_enumFrom :
    ∀ (ls : List String) (n : Nat),
    (List.enumFrom n ls).filterMap
        (fun p => if timestampTest p.2 then some p.1 else Option.none)
      = (startsSpec ls).map (fun i => i + n)
  | [], n => by simp [startsSpec]
  | a :: t, n => by
      have ih := startsSpec_enumFrom t (n + 1)
      rw [List.enumFrom_cons, List.filterMap_cons]
      by_cases h : timestampTest a
      all_goals simp [h, startsSpec, ih, List.map_map, Function.comp,
        Nat.add_assoc, Nat.add_comm, Nat.add_left_comm]

theorem startIndizes_eq_spec (ls : List String) :
    startIndizes ls = startsSpec ls := by
  have h := startsSpec_enumFrom ls 0
  simp only [Nat.add_zero, List.map_id'] at h
  exact h

theorem startsSpec_iff :
    ∀ (ls : List String) (i : Nat),
    i ∈ startsSpec ls ↔ i < ls.length ∧ timestampTest (ls.getD i "") = true
  | [], i => by simp [startsSpec]
  | a :: t, i => by
      have ih := startsSpec_iff t
      cases i with
      | zero => by_cases h : timestampTest a <;>
          simp [startsSpec, h, List.mem_map]
      | succ j => by_cases h : timestampTest a <;>
          simp [startsSpec, h, List.mem_map, ih j, Nat.succ_lt_succ_iff]

theorem startsSpec_chain :
    ∀ (ls : List String), List.Chain' (· < ·) (startsSpec ls)
  | [] => List.chain'_nil
  | a :: t => by
      have ih := startsSpec_chain t
      have hmap : List.Chain' (· < ·)
          ((startsSpec t).map (fun i => i + 1)) := by
        rw [List.chain'_map]
        exact ih.imp (fun x y hxy => by omega)
      by_cases h : timestampTest a
      · simp only [startsSpec, h, if_true, List.singleton_append]
        rw [List.chain'_cons']
        refine ⟨?_, hmap⟩
        intro y hy
        rw [List.head?_map] at hy
        cases hS : (startsSpec t).head? with
        | none => rw [hS] at hy; simp at hy
        | some x => rw [hS] at hy; simp at hy; omega
      · simp only [startsSpec, h, if_false, List.nil_append]
        exact hmap

theorem slices_partition :
    ∀ (is : List Nat) (i : Nat) (ls : List String),
    List.Chain' (· < ·) (i :: is) →
    (((i :: is).zip is).map
        (fun p => (ls.drop p.1).take (p.2 - p.1))).flatten
      ++ ls.drop ((i :: is).getLast!) = ls.drop i
  | [], i, ls, _ => by simp [lastBang_singleton]
  | j :: is', i, ls, h => by
      have hij : i < j := (List.chain'_cons.mp h).1
      have ih := slices_partition is' j ls (List.chain'_cons.mp h).2
      rw [lastBang_cons_cons, List.zip_cons_cons, List.map_cons,
        List.flatten_cons, List.append_assoc, ih]
      have hdj : ls.drop j = (ls.drop i).drop (j - i) := by
        rw [List.drop_drop]
        congr 1
        omega
      rw [hdj, List.take_append_drop]

theorem slices_ne_nil (is : List Nat) (i : Nat) (ls : List String)
    (hch : List.Chain' (· < ·) (i :: is))
    (hb : ∀ x ∈ i :: is, x < ls.length) :
    ∀ p ∈ ((i :: is).zip is).map
        (fun p => (ls.drop p.1).take (p.2 - p.1)), p ≠ [] := by
  intro p hp
  rcases List.mem_map.mp hp with ⟨q, hq, rfl⟩
  have h1 : q.1 < q.2 := by
    rcases q with ⟨q1, q2⟩
    exact zipTail_rel (i :: is) hch (q1, q2) (by simpa using hq)
  have h2 : q.1 ∈ i :: is := by
    rcases q with ⟨q1, q2⟩
    exact (List.of_mem_zip hq).1
  have h3 : q.1 < ls.length := hb q.1 h2
  apply List.ne_nil_of_length_pos
  rw [List.length_take, List.length_drop]
  omega

theorem toList_mk (l : List Char) : (String.mk l).toList = l := rfl

theorem jsJoin_toList (sep : String) (l : List String) :
    (jsJoin sep l).toList =
      List.intercalate sep.toList (l.map String.toList) := rfl

theorem jsSplit_map_toList (s : String) :
    (jsSplit s '\n').map String.toList = s.toList.splitOn '\n' := by
  simp [jsSplit, List.map_map, Function.comp_def, toList_mk]

theorem splitOn_reconstruct (s : String) :
    List.intercalate ['\n'] ((jsSplit s '\n').map String.toList)
      = s.toList := by
  rw [jsSplit_map_toList]
  exact List.intercalate_splitOn s.toList '\n'

theorem jsSplit_ne_nil (s : String) : jsSplit s '\n' ≠ [] := by
  intro hc
  have h := List.map_eq_nil_iff.mpr hc ▸ jsSplit_map_toList s
  exact List.splitOnP_ne_nil _ s.toList (by simpa [List.splitOn] using h.symm)

/-- Core combinatorics of one `enqueueCompleteEntries` pass over a line
buffer whose first line is a record start and which holds at least two
start lines: the slice count, the single residual start index, the exact
partition of the buffer into the slices plus the residue, and the
nonemptiness of every part. -/
theorem splitter_core (L : List String)
    (h0 : timestampTest (L.headD "") = true)
    (hN : 2 ≤ (startIndizes L).length) :
    ((startIndizes L).zip (startIndizes L).tail).length
        = (startIndizes L).length - 1 ∧
    startIndizes (L.drop ((startIndizes L).getLast!)) = [0] ∧
    (((startIndizes L).zip (startIndizes L).tail).map
        (fun p => (L.drop p.1).take (p.2 - p.1))).flatten
      ++ L.drop ((startIndizes L).getLast!) = L ∧
    (∀ p ∈ ((startIndizes L).zip (startIndizes L).tail).map
        (fun p => (L.drop p.1).take (p.2 - p.1)), p ≠ []) ∧
    L.drop ((startIndizes L).getLast!) ≠ [] := by
  have hspec := startIndizes_eq_spec L
  have hchain : List.Chain' (· < ·) (startIndizes L) := by
    rw [hspec]; exact startsSpec_chain L
  have hiff : ∀ i, i ∈ startIndizes L ↔
      i < L.length ∧ timestampTest (L.getD i "") = true := by
    intro i; rw [hspec]; exact startsSpec_iff L i
  have hSne : startIndizes L ≠ [] := by
    intro hc; rw [hc] at hN; simp at hN
  have hbound : ∀ x ∈ startIndizes L, x < L.length :=
    fun x hx => ((hiff x).mp hx).1
  have hm_mem : (startIndizes L).getLast! ∈ startIndizes L :=
    lastBang_mem _ hSne
  have hmlt : (startIndizes L).getLast! < L.length := hbound _ hm_mem
  have hmax : ∀ x ∈ startIndizes L, x ≤ (startIndizes L).getLast! :=
    chainLt_le_lastBang _ hchain
  have hLne : L ≠ [] := by
    apply List.ne_nil_of_length_pos
    omega
  obtain ⟨i0, is, hScons⟩ : ∃ i0 is, startIndizes L = i0 :: is := by
    cases hE : startIndizes L with
    | nil => exact absurd hE hSne
    | cons a t => exact ⟨a, t, rfl⟩
  have h0mem : 0 ∈ startIndizes L := by
    rw [hiff]
    refine ⟨List.length_pos.mpr hLne, ?_⟩
    cases L with
    | nil => exact absurd rfl hLne
    | cons a t => simpa using h0
  have hi0 : i0 = 0 := by
    have hle := chainLt_head_le i0 is (hScons ▸ hchain) 0 (hScons ▸ h0mem)
    omega
  have hresidual : startIndizes (L.drop ((startIndizes L).getLast!)) = [0] := by
    have hmem0 : 0 ∈ startIndizes (L.drop ((startIndizes L).getLast!)) := by
      rw [startIndizes_eq_spec, startsSpec_iff]
      constructor
      · rw [List.length_drop]; omega
      · rw [List.getD_eq_getElem?_getD, List.getElem?_drop, Nat.add_zero,
          ← List.getD_eq_getElem?_getD]
        exact ((hiff _).mp hm_mem).2
    have honly : ∀ i ∈ startIndizes (L.drop ((startIndizes L).getLast!)),
        i = 0 := by
      intro i hi
      rw [startIndizes_eq_spec, startsSpec_iff] at hi
      obtain ⟨hilen, hitest⟩ := hi
      rw [List.length_drop] at hilen
      rw [List.getD_eq_getElem?_getD, List.getElem?_drop,
        ← List.getD_eq_getElem?_getD] at hitest
      have hmi : (startIndizes L).getLast! + i ∈ startIndizes L := by
        rw [hiff]; exact ⟨by omega, hitest⟩
      have := hmax _ hmi
      omega
    have hch' : List.Chain' (· < ·)
        (startIndizes (L.drop ((startIndizes L).getLast!))) := by
      rw [startIndizes_eq_spec]; exact startsSpec_chain _
    rcases hE : startIndizes (L.drop ((startIndizes L).getLast!)) with _ | ⟨x, xs⟩
    · rw [hE] at hmem0; exact absurd hmem0 (List.not_mem_nil 0)
    · have hx : x = 0 := honly x (by rw [hE]; exact List.mem_cons_self x xs)
      rcases hxs : xs with _ | ⟨y, ys⟩
      · rw [hx]
      · rw [hxs] at hE
        have hy : y = 0 := honly y (by rw [hE]; simp)
        rw [hE] at hch'
        have hxy : x < y := (List.chain'_cons.mp hch').1
        omega
  refine ⟨?_, hresidual, ?_, ?_, ?_⟩
  · rw [List.length_zip, List.length_tail]
    omega
  · have hpart := slices_partition is i0 L (hScons ▸ hchain)
    rw [hScons, List.tail_cons]
    rw [hpart, hi0, List.drop_zero]
  · rw [hScons, List.tail_cons]
    exact slices_ne_nil is i0 L (hScons ▸ hchain)
      (fun x hx => hbound x (by rw [hScons]; exact hx))
  · apply List.ne_nil_of_length_pos
    rw [List.length_drop]
    omega

/-- **C4**: refuted on two concrete logs.  (i) `twoRecordText` has two
record-start lines but no trailing newline; the splitter emits nothing
before end-of-stream (the claim demands `N - 1 = 1`) and flushes both
records fused into a single string.  (ii) On the newline-terminated
variant the splitter does emit two separate records, but plain
concatenation of everything emitted does not reconstruct the input text:
the newlines separating the records are lost. -/
theorem splitter_loses_boundaries :
    (((jsSplit twoRecordText '\n').filter (fun l => timestampTest l)).length
        = 2 ∧
      cleEmittedBeforeFlush twoRecordText = [] ∧
      completeLogEntries twoRecordText = [twoRecordText]) ∧
    ((completeLogEntries twoRecordTextNl).length = 2 ∧
      jsJoin "" (completeLogEntries twoRecordTextNl) ≠ twoRecordTextNl) := by
  constructor
  · refine ⟨?_, ?_, ?_⟩ <;> with_unfolding_all decide
  · refine ⟨?_, ?_⟩ <;> with_unfolding_all decide

/-- **C4** (amended): on a text that ends in a newline (its final
`split("\n")` field is empty), whose first line starts a record, and
which contains at least two record-start lines, the splitter emits
exactly `N - 1` entries before end-of-stream, the flush emits exactly
the single final record, and joining all emitted entries with `"\n"`
and restoring the trailing newline reconstructs the input exactly. -/
theorem splitter_spec (text : String)
    (hnl : (jsSplit text '\n').getLast! = "")
    (h0 : timestampTest (((jsSplit text '\n').dropLast).headD "") = true)
    (hN : 2 ≤ (startIndizes ((jsSplit text '\n').dropLast)).length) :
    (cleEmittedBeforeFlush text).length
        = (startIndizes ((jsSplit text '\n').dropLast)).length - 1 ∧
    cleFlush (cleTransform ⟨[], ""⟩ text).1 =
      [jsJoin "\n" (((jsSplit text '\n').dropLast).drop
        ((startIndizes ((jsSplit text '\n').dropLast)).getLast!))] ∧
    jsJoin "\n" (completeLogEntries text) ++ "\n" = text := by
  obtain ⟨hlen1, hres, hpart, hne, hrne⟩ :=
    splitter_core ((jsSplit text '\n').dropLast) h0 hN
  have hlsne : jsSplit text '\n' ≠ [] := jsSplit_ne_nil text
  have hsplit : (jsSplit text '\n').dropLast ++ [""] = jsSplit text '\n' := by
    conv_rhs => rw [← dropLast_append_lastBang (jsSplit text '\n') hlsne, hnl]
  have hLne : (jsSplit text '\n').dropLast ≠ [] := by
    intro hc
    rw [hc] at hrne
    simp at hrne
  have hlsLen : 1 < (jsSplit text '\n').length := by
    have hlen := congrArg List.length hsplit
    simp only [List.length_append, List.length_cons, List.length_nil] at hlen
    have hL1 : 0 < (jsSplit text '\n').dropLast.length :=
      List.length_pos.mpr hLne
    omega
  have hrb : ("" : String) ++ text = text := by cases text with | mk d => rfl
  have hct : cleTransform ⟨[], ""⟩ text =
      (⟨((jsSplit text '\n').dropLast).drop
          ((startIndizes ((jsSplit text '\n').dropLast)).getLast!), ""⟩,
        ((startIndizes ((jsSplit text '\n').dropLast)).zip
            (startIndizes ((jsSplit text '\n').dropLast)).tail).map
          (fun p => jsJoin "\n"
            ((((jsSplit text '\n').dropLast).drop p.1).take (p.2 - p.1)))) := by
    simp only [cleTransform, hrb]
    rw [if_pos hlsLen]
    simp only [List.nil_append, enqueueCompleteEntries]
    rw [if_neg (by omega :
      ¬ (startIndizes ((jsSplit text '\n').dropLast)).length ≤ 1)]
    rw [hnl]
  have hflush : cleFlush ⟨((jsSplit text '\n').dropLast).drop
      ((startIndizes ((jsSplit text '\n').dropLast)).getLast!), ""⟩ =
      [jsJoin "\n" (((jsSplit text '\n').dropLast).drop
        ((startIndizes ((jsSplit text '\n').dropLast)).getLast!))] := by
    simp only [cleFlush, enqueueCompleteEntries, hres, List.length_cons,
      List.length_nil]
    rw [if_pos (by omega : 0 + 1 ≤ 1)]
    rw [if_neg (by decide : ¬ ("" : String).length > 0)]
    rw [if_pos (List.length_pos.mpr hrne)]
    rw [List.nil_append]
  refine ⟨?_, ?_, ?_⟩
  · simp only [cleEmittedBeforeFlush, hct, List.length_map]
    exact hlen1
  · rw [hct]
    exact hflush
  · have hext : ∀ a b : String, a.toList = b.toList → a = b :=
      fun a b h => String.ext h
    have hta : ∀ a b : String, (a ++ b).toList = a.toList ++ b.toList :=
      fun a b => String.data_append a b
    have hall : completeLogEntries text =
        (((startIndizes ((jsSplit text '\n').dropLast)).zip
            (startIndizes ((jsSplit text '\n').dropLast)).tail).map
          (fun p => jsJoin "\n"
            ((((jsSplit text '\n').dropLast).drop p.1).take (p.2 - p.1))))
        ++ [jsJoin "\n" (((jsSplit text '\n').dropLast).drop
            ((startIndizes ((jsSplit text '\n').dropLast)).getLast!))] := by
      simp only [completeLogEntries, hct, hflush]
    rw [hall]
    apply hext
    rw [hta, jsJoin_toList]
    rw [List.map_append, List.map_cons, List.map_nil, List.map_map]
    simp only [Function.comp_def, jsJoin_toList]
    have hnlT : ("\n" : String).toList = ['\n'] := rfl
    rw [hnlT]
    have hparts : (((startIndizes ((jsSplit text '\n').dropLast)).zip
            (startIndizes ((jsSplit text '\n').dropLast)).tail).map
          (fun p => List.intercalate ['\n']
            (((((jsSplit text '\n').dropLast).drop p.1).take (p.2 - p.1)).map
              String.toList)))
          ++ [List.intercalate ['\n']
            ((((jsSplit text '\n').dropLast).drop
              ((startIndizes ((jsSplit text '\n').dropLast)).getLast!)).map
              String.toList)]
        = ((((startIndizes ((jsSplit text '\n').dropLast)).zip
            (startIndizes ((jsSplit text '\n').dropLast)).tail).map
          (fun p => ((((jsSplit text '\n').dropLast).drop p.1).take
            (p.2 - p.1)).map String.toList))
          ++ [(((jsSplit text '\n').dropLast).drop
            ((startIndizes ((jsSplit text '\n').dropLast)).getLast!)).map
            String.toList]).map (List.intercalate ['\n']) := by
      rw [List.map_append, List.map_map]
      simp [Function.comp_def]
    rw [hparts]
    have hne' : ∀ part ∈ (((startIndizes ((jsSplit text '\n').dropLast)).zip
            (startIndizes ((jsSplit text '\n').dropLast)).tail).map
          (fun p => ((((jsSplit text '\n').dropLast).drop p.1).take
            (p.2 - p.1)).map String.toList))
          ++ [(((jsSplit text '\n').dropLast).drop
            ((startIndizes ((jsSplit text '\n').dropLast)).getLast!)).map
            String.toList], part ≠ [] := by
      intro part hmem
      rcases List.mem_append.mp hmem with hmem | hmem
      · rcases List.mem_map.mp hmem with ⟨p, hpm, rfl⟩
        simp only [ne_eq, List.map_eq_nil_iff]
        exact hne _ (List.mem_map_of_mem _ hpm)
      · simp only [List.mem_cons, List.not_mem_nil, or_false] at hmem
        subst hmem
        simp only [ne_eq, List.map_eq_nil_iff]
        exact hrne
    rw [interc_flatten_map ['\n'] _ hne']
    rw [List.flatten_append, List.flatten_cons, List.flatten_nil,
      List.append_nil]
    have hfl2 : (((startIndizes ((jsSplit text '\n').dropLast)).zip
            (startIndizes ((jsSplit text '\n').dropLast)).tail).map
          (fun p => ((((jsSplit text '\n').dropLast).drop p.1).take
            (p.2 - p.1)).map String.toList)).flatten
        = ((((startIndizes ((jsSplit text '\n').dropLast)).zip
            (startIndizes ((jsSplit text '\n').dropLast)).tail).map
          (fun p => (((jsSplit text '\n').dropLast).drop p.1).take
            (p.2 - p.1))).flatten).map String.toList := by
      rw [List.map_flatten, List.map_map]
      simp [Function.comp_def]
    rw [hfl2, ← List.map_append, hpart]
    rw [← splitOn_reconstruct text, ← hsplit]
    rw [List.map_append, List.map_cons, List.map_nil]
    have hemp : ("" : String).toList = ([] : List Char) := rfl
    rw [hemp]
    rw [interc_append ['\n'] (((jsSplit text '\n').dropLast).map String.toList)
      [[]] (by simp only [ne_eq, List.map_eq_nil_iff]; exact hLne) (by simp)]
    rw [interc_single]
    simp [List.append_assoc]

/-- Witness for C4 (amended): on the newline-terminated two-record log the
splitter emits one entry early, flushes exactly the final record, and the
newline-join of everything emitted plus the trailing newline reconstructs
the text. -/
theorem splitter_spec_witness :
    (jsSplit twoRecordTextNl '\n').getLast! = "" ∧
    timestampTest (((jsSplit twoRecordTextNl '\n').dropLast).headD "")
        = true ∧
    2 ≤ (startIndizes ((jsSplit twoRecordTextNl '\n').dropLast)).length ∧
    ((cleEmittedBeforeFlush twoRecordTextNl).length
        = (startIndizes ((jsSplit twoRecordTextNl '\n').dropLast)).length
            - 1 ∧
      cleFlush (cleTransform ⟨[], ""⟩ twoRecordTextNl).1 =
        [jsJoin "\n" (((jsSplit twoRecordTextNl '\n').dropLast).drop
          ((startIndizes ((jsSplit twoRecordTextNl '\n').dropLast)).getLast!))] ∧
      jsJoin "\n" (completeLogEntries twoRecordTextNl) ++ "\n"
        = twoRecordTextNl) :=
  ⟨by with_unfolding_all decide, by with_unfolding_all decide,
   by with_unfolding_all decide,
   splitter_spec twoRecordTextNl (by with_unfolding_all decide)
     (by with_unfolding_all decide) (by with_unfolding_all decide)⟩

/-! ## C8: attribute-filter path resolution -/

theorem splitOnP_parts_no (p : Char → Bool) :
    ∀ (s : List Char), ∀ x ∈ s.splitOnP p, ∀ a ∈ x, ¬ p a = true
  | [], x, hx => by
      rw [List.splitOnP_nil] at hx
      simp only [List.mem_cons, List.not_mem_nil, or_false] at hx
      subst hx
      simp
  | a :: t, x, hx => by
      rw [List.splitOnP_cons] at hx
      by_cases h : p a
      · rw [if_pos h] at hx
        rcases List.mem_cons.mp hx with rfl | hx'
        · simp
        · exact splitOnP_parts_no p t x hx'
      · rw [if_neg h] at hx
        cases hE : t.splitOnP p with
        | nil => exact absurd hE (List.splitOnP_ne_nil p t)
        | cons y ys =>
            rw [hE] at hx
            simp only [List.modifyHead] at hx
            rcases List.mem_cons.mp hx with rfl | hx'
            · intro b hb
              rcases List.mem_cons.mp hb with rfl | hb'
              · simpa using h
              · exact splitOnP_parts_no p t y
                  (hE ▸ List.mem_cons_self y ys) b hb'
            · exact splitOnP_parts_no p t x
                (hE ▸ List.mem_cons_of_mem y hx')

theorem splitOn_parts_no_sep (c : Char) (s : List Char) :
    ∀ x ∈ s.splitOn c, c ∉ x := by
  intro x hx hc
  have h := splitOnP_parts_no (fun a => a == c) s x
    (by simpa [List.splitOn] using hx) c hc
  simp at h

theorem jsSplit_no_dot (path : String) :
    ∀ s ∈ jsSplit path '.', ('.' : Char) ∉ s.toList := by
  intro s hs
  rcases List.mem_map.mp hs with ⟨x, hx, rfl⟩
  rw [toList_mk]
  exact splitOn_parts_no_sep '.' path.toList x hx

theorem jsSplit_jsJoin (l : List String) (hl : l ≠ [])
    (hds : ∀ s ∈ l, ('.' : Char) ∉ s.toList) :
    jsSplit (jsJoin "." l) '.' = l := by
  have hmt : ∀ s : String, String.mk s.toList = s := fun s => rfl
  have hdT : (("." : String)).toList = ['.'] := rfl
  show ((jsJoin "." l).toList.splitOn '.').map String.mk = l
  rw [jsJoin_toList, hdT]
  rw [List.splitOn_intercalate (l.map String.toList) '.'
    (by intro x hxm
        rcases List.mem_map.mp hxm with ⟨s, hs, rfl⟩
        exact hds s hs)
    (fun hc => hl (List.map_eq_nil_iff.mp hc))]
  rw [List.map_map]
  simp [Function.comp_def, hmt]

/-- **C8**: refuted on a concrete event.  The path is not resolved
literally: every `attributes` segment is FILTERED OUT of the dot-path
before resolution (log-query-engine.ts line 570).  The literal resolution
of `"payload.attributes.x"` on `c8Entry` finds `"OK"`, but the code
resolves the filtered path `payload.x` and finds nothing, so an `eq`
filter on that value fails; conversely `"attributes.payload"` resolves
under the code (as `payload`) although the literal path finds nothing. -/
theorem attribute_path_drops_attributes_segments :
    resolveLiteralSpec c8Entry "payload.attributes.x"
        = some (JsonValue.str "OK") ∧
    getValueByPath c8Entry "payload.attributes.x" = Option.none ∧
    applyAttributeFilter (fun _ _ => Option.none) c8Entry
        ⟨"payload.attributes.x", FilterOp.eq, some (JsonValue.str "OK")⟩
      = false ∧
    resolveLiteralSpec c8Entry "attributes.payload" = Option.none ∧
    getValueByPath c8Entry "attributes.payload"
      = some (JsonValue.obj
          [("attributes", JsonValue.obj [("x", JsonValue.str "OK")])]) := by
  refine ⟨?_, ?_, ?_, ?_, ?_⟩
  · with_unfolding_all rfl
  · with_unfolding_all rfl
  · with_unfolding_all decide
  · with_unfolding_all rfl
  · with_unfolding_all rfl

/-- **C8** (amended): the dot-separated path with every `attributes`
segment removed is what gets resolved literally against the event object
(`getValueByPath` equals the spec's literal resolution applied to the
filtered path), with the retry under the `attributes` sub-object keyed on
the filtered path having a single segment; and the supplied filters are
ANDed (each additional filter conjoins with the rest). -/
theorem attribute_filter_spec (entry : JsonValue) (f : AttributeFilter)
    (hne : pathParts f.path ≠ []) :
    getValueByPath entry f.path
      = resolveLiteralSpec entry (jsJoin "." (pathParts f.path)) ∧
    ∀ (compile : RegexEngine) (filters : List AttributeFilter),
      passesAttributeFilters compile entry (f :: filters)
        = (applyAttributeFilter compile entry f &&
            passesAttributeFilters compile entry filters) := by
  constructor
  · have hsub : ∀ s ∈ pathParts f.path, ('.' : Char) ∉ s.toList := by
      intro s hs
      exact jsSplit_no_dot f.path s (List.mem_of_mem_filter hs)
    have hrt := jsSplit_jsJoin (pathParts f.path) hne hsub
    simp only [getValueByPath, resolveLiteralSpec, hrt]
  · intro compile filters
    simp [passesAttributeFilters]

/-- Witness for C8 (amended) at the concrete entry and the path
`"payload.attributes.x"` (filtered to `payload.x`). -/
theorem attribute_filter_spec_witness :
    pathParts "payload.attributes.x" ≠ [] ∧
    (getValueByPath c8Entry "payload.attributes.x"
        = resolveLiteralSpec c8Entry
            (jsJoin "." (pathParts "payload.attributes.x")) ∧
      ∀ (compile : RegexEngine) (filters : List AttributeFilter),
        passesAttributeFilters compile c8Entry
            (⟨"payload.attributes.x", FilterOp.eq,
              some (JsonValue.str "OK")⟩ :: filters)
          = (applyAttributeFilter compile c8Entry
              ⟨"payload.attributes.x", FilterOp.eq,
                some (JsonValue.str "OK")⟩ &&
              passesAttributeFilters compile c8Entry filters)) :=
  ⟨by with_unfolding_all decide,
   attribute_filter_spec c8Entry
     ⟨"payload.attributes.x", FilterOp.eq, some (JsonValue.str "OK")⟩
     (by with_unfolding_all decide)⟩

/-! ## C1: timestamp monotonicity of the two RSSI stages -/

theorem TsMono_iff (l : List SemanticLogInfo) :
    TsMono l ↔ List.Pairwise tsLe l :=
  @List.chain'_iff_pairwise SemanticLogInfo tsLe _ l

/-- The aggregator's summary event is stamped with the first buffered
entry's timestamp. -/
theorem aggFlush_mem_ts (buf : List SemanticLogInfo) :
    ∀ a ∈ aggFlush buf, ∃ b ∈ buf, tsOf a = tsOf b := by
  unfold aggFlush
  split
  · simp
  · split
    · intro a ha
      exact ⟨a, ha, rfl⟩
    · intro a ha
      simp only [List.mem_cons, List.not_mem_nil, or_false] at ha
      subst ha
      cases buf with
      | nil => simp_all
      | cons h t => exact ⟨h, List.mem_cons_self h t, rfl⟩

theorem aggFlush_pairwise (buf : List SemanticLogInfo)
    (hbuf : List.Pairwise tsLe buf) :
    List.Pairwise tsLe (aggFlush buf) := by
  unfold aggFlush
  split
  · exact List.Pairwise.nil
  · split
    · exact hbuf
    · exact List.pairwise_singleton _ _

theorem agg_run_spec :
    ∀ (cs buf : List SemanticLogInfo),
    List.Pairwise tsLe cs →
    List.Pairwise tsLe buf →
    (∀ b ∈ buf, ∀ c ∈ cs, tsLe b c) →
    List.Pairwise tsLe ((aggRun buf cs).2 ++ aggFlush (aggRun buf cs).1) ∧
    ∀ y ∈ (aggRun buf cs).2 ++ aggFlush (aggRun buf cs).1,
      ∃ b, (b ∈ buf ∨ b ∈ cs) ∧ tsOf y = tsOf b
  | [], buf, _, hbuf, _ => by
      refine ⟨by simpa [aggRun] using aggFlush_pairwise buf hbuf, ?_⟩
      intro y hy
      simp only [aggRun, List.nil_append] at hy
      obtain ⟨b, hb, hts⟩ := aggFlush_mem_ts buf y hy
      exact ⟨b, Or.inl hb, hts⟩
  | c :: cs, buf, hcs, hbuf, hlink => by
      have hcs' : List.Pairwise tsLe cs := (List.pairwise_cons.mp hcs).2
      have hcHead : ∀ x ∈ cs, tsLe c x := (List.pairwise_cons.mp hcs).1
      have hrun : aggRun buf (c :: cs) =
          ((aggRun (aggStep buf c).1 cs).1,
            (aggStep buf c).2 ++ (aggRun (aggStep buf c).1 cs).2) := rfl
      by_cases hbg : c.kind = "BACKGROUND_RSSI"
      · have hstep : aggStep buf c = (buf ++ [c], []) := by
          simp [aggStep, hbg]
        have IH := agg_run_spec cs (buf ++ [c]) hcs'
          (by
            rw [List.pairwise_append]
            exact ⟨hbuf, List.pairwise_singleton _ _,
              by
                intro a ha b hb
                have hb' : b = c := List.mem_singleton.mp hb
                rw [hb']
                exact hlink a ha c (List.mem_cons_self c cs)⟩)
          (by
            intro b hb x hx
            rcases List.mem_append.mp hb with hb' | hb'
            · exact hlink b hb' x (List.mem_cons_of_mem c hx)
            · simp only [List.mem_cons, List.not_mem_nil, or_false] at hb'
              subst hb'
              exact hcHead x hx)
        rw [hrun, hstep]
        simp only [List.nil_append]
        refine ⟨IH.1, ?_⟩
        intro y hy
        obtain ⟨b, hb, hts⟩ := IH.2 y hy
        rcases hb with hb | hb
        · rcases List.mem_append.mp hb with hb' | hb'
          · exact ⟨b, Or.inl hb', hts⟩
          · simp only [List.mem_cons, List.not_mem_nil, or_false] at hb'
            subst hb'
            exact ⟨b, Or.inr (List.mem_cons_self b cs), hts⟩
        · exact ⟨b, Or.inr (List.mem_cons_of_mem c hb), hts⟩
      · have hstep : aggStep buf c = ([], aggFlush buf ++ [c]) := by
          simp [aggStep, hbg]
        have IH := agg_run_spec cs [] hcs' List.Pairwise.nil (by simp)
        rw [hrun, hstep]
        rw [List.append_assoc]
        constructor
        · rw [List.pairwise_append]
          refine ⟨?_, IH.1, ?_⟩
          · rw [List.pairwise_append]
            refine ⟨aggFlush_pairwise buf hbuf, List.pairwise_singleton _ _, ?_⟩
            intro a ha b hb
            have hb0 : b = c := List.mem_singleton.mp hb
            rw [hb0]
            obtain ⟨b', hb', hts⟩ := aggFlush_mem_ts buf a ha
            show tsOf a ≤ tsOf c
            rw [hts]
            exact hlink b' hb' c (List.mem_cons_self c cs)
          · intro a ha y hy
            obtain ⟨b, hb, hts⟩ := IH.2 y hy
            rcases hb with hb | hb
            · exact absurd hb (List.not_mem_nil b)
            · show tsOf a ≤ tsOf y
              rw [hts]
              rcases List.mem_append.mp ha with ha' | ha'
              · obtain ⟨b', hb', hts'⟩ := aggFlush_mem_ts buf a ha'
                rw [hts']
                exact hlink b' hb' b (List.mem_cons_of_mem c hb)
              · simp only [List.mem_cons, List.not_mem_nil, or_false] at ha'
                subst ha'
                exact hcHead b hb
        · intro y hy
          rcases List.mem_append.mp hy with hy' | hy'
          · rcases List.mem_append.mp hy' with hy'' | hy''
            · obtain ⟨b, hb, hts⟩ := aggFlush_mem_ts buf y hy''
              exact ⟨b, Or.inl hb, hts⟩
            · simp only [List.mem_cons, List.not_mem_nil, or_false] at hy''
              subst hy''
              exact ⟨y, Or.inr (List.mem_cons_self y cs), rfl⟩
          · obtain ⟨b, hb, hts⟩ := IH.2 y hy'
            rcases hb with hb | hb
            · exact absurd hb (List.not_mem_nil b)
            · exact ⟨b, Or.inr (List.mem_cons_of_mem c hb), hts⟩

theorem detect_run_spec :
    ∀ (cs : List SemanticLogInfo) (st : DetectState),
    List.Pairwise tsLe cs →
    List.Pairwise tsLe (detectFlush st) →
    (∀ b ∈ detectFlush st, ∀ c ∈ cs, tsLe b c) →
    cleanMergeRun st cs = true →
    (st.pendingRequest = Option.none → st.bufferedEntries = []) →
    List.Pairwise tsLe
        ((detectRun st cs).2 ++ detectFlush (detectRun st cs).1) ∧
    ∀ y ∈ (detectRun st cs).2 ++ detectFlush (detectRun st cs).1,
      ∃ b, (b ∈ detectFlush st ∨ b ∈ cs) ∧ tsOf y = tsOf b
  | [], st, _, hflush, _, _, _ => by
      refine ⟨by simpa [detectRun] using hflush, ?_⟩
      intro y hy
      simp only [detectRun, List.nil_append] at hy
      exact ⟨y, Or.inl hy, rfl⟩
  | c :: cs, st, hcs, hflush, hlink, hclean, hstinv => by
      have hrun1 : (detectRun st (c :: cs)).1 =
          (detectRun (detectStep st c).1 cs).1 := rfl
      have hrun2 : (detectRun st (c :: cs)).2 =
          (detectStep st c).2 ++ (detectRun (detectStep st c).1 cs).2 := rfl
      have hcleanStep := hclean
      rw [show cleanMergeRun st (c :: cs) =
          ((!(isMergeCase st c) || st.bufferedEntries.isEmpty) &&
            cleanMergeRun (detectStep st c).1 cs) from rfl,
        Bool.and_eq_true] at hcleanStep
      obtain ⟨hclean1, hclean2⟩ := hcleanStep
      have hcs' : List.Pairwise tsLe cs := (List.pairwise_cons.mp hcs).2
      have hcHead : ∀ x ∈ cs, tsLe c x := (List.pairwise_cons.mp hcs).1
      by_cases hreq : isBgRequest c = true
      · -- a new request: flush the old state, pend the request
        have hstep : detectStep st c = (⟨some c, []⟩, detectFlush st) := by
          simp [detectStep, hreq]
        have hstep1 : (detectStep st c).1 = ⟨some c, []⟩ := by rw [hstep]
        have hstep2 : (detectStep st c).2 = detectFlush st := by rw [hstep]
        have hfl' : detectFlush (⟨some c, []⟩ : DetectState) = [c] := rfl
        rw [hstep1] at hclean2
        have IH := detect_run_spec cs ⟨some c, []⟩ hcs'
          (by rw [hfl']; exact List.pairwise_singleton _ _)
          (by
            rw [hfl']
            intro b hb x hx
            have hb' : b = c := List.mem_singleton.mp hb
            rw [hb']
            exact hcHead x hx)
          hclean2 (fun _ => rfl)
        rw [hrun2, hrun1, hstep1, hstep2, List.append_assoc]
        constructor
        · rw [List.pairwise_append]
          refine ⟨hflush, IH.1, ?_⟩
          intro a ha y hy
          obtain ⟨b, hb, hts⟩ := IH.2 y hy
          show tsOf a ≤ tsOf y
          rw [hts]
          rcases hb with hb | hb
          · rw [hfl'] at hb
            have hb' : b = c := List.mem_singleton.mp hb
            rw [hb']
            exact hlink a ha c (List.mem_cons_self c cs)
          · exact hlink a ha b (List.mem_cons_of_mem c hb)
        · intro y hy
          rcases List.mem_append.mp hy with hy | hy
          · exact ⟨y, Or.inl hy, rfl⟩
          · obtain ⟨b, hb, hts⟩ := IH.2 y hy
            rcases hb with hb | hb
            · rw [hfl'] at hb
              have hb' : b = c := List.mem_singleton.mp hb
              exact ⟨c, Or.inr (List.mem_cons_self c cs), hb' ▸ hts⟩
            · exact ⟨b, Or.inr (List.mem_cons_of_mem c hb), hts⟩
      · cases hp : st.pendingRequest with
        | none =>
            -- no pending request: the event passes through unchanged
            have hbuf0 : st.bufferedEntries = [] := hstinv hp
            have hflush0 : detectFlush st = [] := by
              simp [detectFlush, hp, hbuf0]
            have hstep : detectStep st c = (st, [c]) := by
              simp [detectStep, hreq, hp]
            have hstep1 : (detectStep st c).1 = st := by rw [hstep]
            have hstep2 : (detectStep st c).2 = [c] := by rw [hstep]
            rw [hstep1] at hclean2
            have IH := detect_run_spec cs st hcs'
              (by rw [hflush0]; exact List.Pairwise.nil)
              (by rw [hflush0]; simp)
              hclean2 hstinv
            rw [hrun2, hrun1, hstep1, hstep2, List.append_assoc]
            constructor
            · rw [List.pairwise_append]
              refine ⟨List.pairwise_singleton _ _, IH.1, ?_⟩
              intro a ha y hy
              have ha' : a = c := List.mem_singleton.mp ha
              obtain ⟨b, hb, hts⟩ := IH.2 y hy
              show tsOf a ≤ tsOf y
              rw [hts, ha']
              rcases hb with hb | hb
              · rw [hflush0] at hb
                exact absurd hb (List.not_mem_nil b)
              · exact hcHead b hb
            · intro y hy
              rcases List.mem_append.mp hy with hy | hy
              · have hy' : y = c := List.mem_singleton.mp hy
                exact ⟨c, Or.inr (List.mem_cons_self c cs), by rw [hy']⟩
              · obtain ⟨b, hb, hts⟩ := IH.2 y hy
                rcases hb with hb | hb
                · rw [hflush0] at hb
                  exact absurd hb (List.not_mem_nil b)
                · exact ⟨b, Or.inr (List.mem_cons_of_mem c hb), hts⟩
        | some pending =>
            by_cases hdiff : 200 <
                parseTimestampMs c.timestamp - parseTimestampMs pending.timestamp
            · -- the pending request timed out: flush it, pass the event on
              have hstep : detectStep st c =
                  (⟨Option.none, []⟩, detectFlush st ++ [c]) := by
                simp [detectStep, hreq, hp, hdiff]
              have hstep1 : (detectStep st c).1 = ⟨Option.none, []⟩ := by
                rw [hstep]
              have hstep2 : (detectStep st c).2 = detectFlush st ++ [c] := by
                rw [hstep]
              rw [hstep1] at hclean2
              have IH := detect_run_spec cs ⟨Option.none, []⟩ hcs'
                List.Pairwise.nil (by simp [detectFlush]) hclean2
                (fun _ => rfl)
              rw [hrun2, hrun1, hstep1, hstep2, List.append_assoc]
              constructor
              · rw [List.pairwise_append]
                refine ⟨?_, IH.1, ?_⟩
                · rw [List.pairwise_append]
                  refine ⟨hflush, List.pairwise_singleton _ _, ?_⟩
                  intro a ha b hb
                  have hb' : b = c := List.mem_singleton.mp hb
                  rw [hb']
                  exact hlink a ha c (List.mem_cons_self c cs)
                · intro a ha y hy
                  obtain ⟨b, hb, hts⟩ := IH.2 y hy
                  show tsOf a ≤ tsOf y
                  rw [hts]
                  rcases hb with hb | hb
                  · exact absurd hb (List.not_mem_nil b)
                  · rcases List.mem_append.mp ha with ha' | ha'
                    · exact hlink a ha' b (List.mem_cons_of_mem c hb)
                    · have ha'' : a = c := List.mem_singleton.mp ha'
                      rw [ha'']
                      exact hcHead b hb
              · intro y hy
                rcases List.mem_append.mp hy with hy | hy
                · rcases List.mem_append.mp hy with hy' | hy'
                  · exact ⟨y, Or.inl hy', rfl⟩
                  · have hy'' : y = c := List.mem_singleton.mp hy'
                    exact ⟨c, Or.inr (List.mem_cons_self c cs), by rw [hy'']⟩
                · obtain ⟨b, hb, hts⟩ := IH.2 y hy
                  rcases hb with hb | hb
                  · exact absurd hb (List.not_mem_nil b)
                  · exact ⟨b, Or.inr (List.mem_cons_of_mem c hb), hts⟩
            · by_cases hresp : isBgResponse c = true
              · -- the merge: by cleanness the buffer is empty
                have hreq' : isBgRequest c = false := by
                  cases hE : isBgRequest c
                  · rfl
                  · exact absurd hE hreq
                have hmc : isMergeCase st c = true := by
                  simp only [isMergeCase, hreq', hp, hresp, Bool.not_false,
                    Bool.true_and, Bool.and_true, decide_eq_true_eq]
                  omega
                rw [hmc] at hclean1
                simp only [Bool.not_true, Bool.false_or] at hclean1
                have hbufnil : st.bufferedEntries = [] :=
                  List.isEmpty_iff.mp hclean1
                have hflushEq : detectFlush st = [pending] := by
                  simp [detectFlush, hp, hbufnil]
                have hstep : detectStep st c =
                    (⟨Option.none, []⟩,
                      [mkMergedEntry pending (bgResponseAttrs c)]) := by
                  simp [detectStep, hreq, hp, hdiff, hresp, hbufnil]
                have hstep1 : (detectStep st c).1 = ⟨Option.none, []⟩ := by
                  rw [hstep]
                have hstep2 : (detectStep st c).2 =
                    [mkMergedEntry pending (bgResponseAttrs c)] := by
                  rw [hstep]
                have hmts : tsOf (mkMergedEntry pending (bgResponseAttrs c))
                    = tsOf pending := rfl
                have hpmem : pending ∈ detectFlush st := by
                  rw [hflushEq]
                  exact List.mem_singleton_self pending
                rw [hstep1] at hclean2
                have IH := detect_run_spec cs ⟨Option.none, []⟩ hcs'
                  List.Pairwise.nil (by simp [detectFlush]) hclean2
                  (fun _ => rfl)
                rw [hrun2, hrun1, hstep1, hstep2, List.append_assoc]
                constructor
                · rw [List.pairwise_append]
                  refine ⟨List.pairwise_singleton _ _, IH.1, ?_⟩
                  intro a ha y hy
                  have ha' : a = mkMergedEntry pending (bgResponseAttrs c) :=
                    List.mem_singleton.mp ha
                  obtain ⟨b, hb, hts⟩ := IH.2 y hy
                  show tsOf a ≤ tsOf y
                  rw [hts, ha', hmts]
                  rcases hb with hb | hb
                  · exact absurd hb (List.not_mem_nil b)
                  · exact hlink pending hpmem b (List.mem_cons_of_mem c hb)
                · intro y hy
                  rcases List.mem_append.mp hy with hy | hy
                  · have hy' : y = mkMergedEntry pending (bgResponseAttrs c) :=
                      List.mem_singleton.mp hy
                    exact ⟨pending, Or.inl hpmem, by rw [hy', hmts]⟩
                  · obtain ⟨b, hb, hts⟩ := IH.2 y hy
                    rcases hb with hb | hb
                    · exact absurd hb (List.not_mem_nil b)
                    · exact ⟨b, Or.inr (List.mem_cons_of_mem c hb), hts⟩
              · -- neither response nor timeout: buffer the event
                have hstep : detectStep st c =
                    (⟨some pending, st.bufferedEntries ++ [c]⟩, []) := by
                  simp [detectStep, hreq, hp, hdiff, hresp]
                have hstep1 : (detectStep st c).1 =
                    ⟨some pending, st.bufferedEntries ++ [c]⟩ := by rw [hstep]
                have hstep2 : (detectStep st c).2 = [] := by rw [hstep]
                have hflushEq : detectFlush st =
                    pending :: st.bufferedEntries := by
                  simp [detectFlush, hp]
                have hpw_old : List.Pairwise tsLe
                    (pending :: st.bufferedEntries) := by
                  rw [← hflushEq]; exact hflush
                have hfl' : detectFlush
                    (⟨some pending, st.bufferedEntries ++ [c]⟩ : DetectState)
                    = pending :: (st.bufferedEntries ++ [c]) := rfl
                have hfl'_pw : List.Pairwise tsLe
                    (pending :: (st.bufferedEntries ++ [c])) := by
                  refine List.pairwise_cons.mpr ⟨?_, ?_⟩
                  · intro y hy
                    rcases List.mem_append.mp hy with hy | hy
                    · exact (List.pairwise_cons.mp hpw_old).1 y hy
                    · have hy' : y = c := List.mem_singleton.mp hy
                      rw [hy']
                      exact hlink pending
                        (by rw [hflushEq]; exact List.mem_cons_self _ _)
                        c (List.mem_cons_self c cs)
                  · rw [List.pairwise_append]
                    refine ⟨(List.pairwise_cons.mp hpw_old).2,
                      List.pairwise_singleton _ _, ?_⟩
                    intro a ha b hb
                    have hb' : b = c := List.mem_singleton.mp hb
                    rw [hb']
                    exact hlink a
                      (by rw [hflushEq]; exact List.mem_cons_of_mem pending ha)
                      c (List.mem_cons_self c cs)
                have hlink' : ∀ b ∈ pending :: (st.bufferedEntries ++ [c]),
                    ∀ x ∈ cs, tsLe b x := by
                  intro b hb x hx
                  rcases List.mem_cons.mp hb with hbp | hb
                  · rw [hbp]
                    exact hlink pending
                      (by rw [hflushEq]; exact List.mem_cons_self _ _)
                      x (List.mem_cons_of_mem c hx)
                  · rcases List.mem_append.mp hb with hb | hb
                    · exact hlink b
                        (by rw [hflushEq]; exact List.mem_cons_of_mem pending hb)
                        x (List.mem_cons_of_mem c hx)
                    · have hb' : b = c := List.mem_singleton.mp hb
                      rw [hb']
                      exact hcHead x hx
                rw [hstep1] at hclean2
                have IH := detect_run_spec cs
                  ⟨some pending, st.bufferedEntries ++ [c]⟩ hcs'
                  (by rw [hfl']; exact hfl'_pw)
                  (by rw [hfl']; exact hlink')
                  hclean2 (fun h => Option.noConfusion h)
                rw [hrun2, hrun1, hstep1, hstep2, List.nil_append]
                refine ⟨IH.1, ?_⟩
                intro y hy
                obtain ⟨b, hb, hts⟩ := IH.2 y hy
                rcases hb with hb | hb
                · rw [hfl'] at hb
                  rcases List.mem_cons.mp hb with hbp | hb
                  · exact ⟨pending,
                      Or.inl (by rw [hflushEq]; exact List.mem_cons_self _ _),
                      hbp ▸ hts⟩
                  · rcases List.mem_append.mp hb with hb | hb
                    · exact ⟨b,
                        Or.inl (by
                          rw [hflushEq]
                          exact List.mem_cons_of_mem pending hb),
                        hts⟩
                    · have hb' : b = c := List.mem_singleton.mp hb
                      exact ⟨c, Or.inr (List.mem_cons_self c cs), hb' ▸ hts⟩
                · exact ⟨b, Or.inr (List.mem_cons_of_mem c hb), hts⟩

/-- The RSSI-call correlator preserves non-decreasing timestamps on a
clean run (every merge happens with an empty buffer). -/
theorem detectBackgroundRSSICalls_mono (events : List SemanticLogInfo)
    (h : List.Pairwise tsLe events)
    (hclean : cleanMergeRun ⟨Option.none, []⟩ events = true) :
    List.Pairwise tsLe (detectBackgroundRSSICalls events) := by
  have hspec := detect_run_spec events ⟨Option.none, []⟩ h
    List.Pairwise.nil (by simp [detectFlush]) hclean (fun _ => rfl)
  simpa [detectBackgroundRSSICalls] using hspec.1

/-- The RSSI aggregator preserves non-decreasing timestamps
unconditionally. -/
theorem aggregateBackgroundRSSI_mono (events : List SemanticLogInfo)
    (h : List.Pairwise tsLe events) :
    List.Pairwise tsLe (aggregateBackgroundRSSI events) := by
  have hspec := agg_run_spec events [] h List.Pairwise.nil (by simp)
  simpa [aggregateBackgroundRSSI] using hspec.1

set_option maxHeartbeats 2000000 in
set_option linter.constructorNameAsVariable false in
/-- **C1** (amended): when the classified stream entering the two RSSI
stages has non-decreasing timestamps and every `GetBackgroundRSSI` merge
happens with an empty buffer (no event arrives between the request and
its matching response), the full pipeline output has monotonically
non-decreasing timestamps.  (The counterexample shows the cleanness
hypothesis is necessary: an event interleaved between request and
response is flushed before the merged event, whose stamp is the earlier
request timestamp.) -/
theorem pipeline_timestamps_monotone (text : String)
    (hmono : TsMono (classifiedStream text))
    (hclean : cleanMergeRun ⟨Option.none, []⟩ (classifiedStream text) = true) :
    TsMono (processLogContent text) := by
  rw [TsMono_iff] at hmono ⊢
  unfold processLogContent
  exact aggregateBackgroundRSSI_mono _
    (detectBackgroundRSSICalls_mono _ hmono hclean)

set_option maxHeartbeats 2000000 in
set_option maxRecDepth 100000 in
/-- Witness for C1 (amended): the clean request/response log satisfies
both hypotheses and its pipeline output is monotone. -/
theorem pipeline_timestamps_monotone_witness :
    cleanMergeRun ⟨Option.none, []⟩ (classifiedStream cleanRssiText)
        = true ∧
    TsMono (classifiedStream cleanRssiText) ∧
    TsMono (processLogContent cleanRssiText) := by
  have hcl : classifiedStream cleanRssiText = [bgReqEvent, bgRespEvent] := by
    with_unfolding_all decide
  have hm : TsMono (classifiedStream cleanRssiText) := by
    rw [TsMono, hcl]
    exact List.chain'_cons.mpr
      ⟨by with_unfolding_all decide, List.chain'_singleton _⟩
  exact ⟨by with_unfolding_all decide, hm,
    pipeline_timestamps_monotone cleanRssiText hm
      (by with_unfolding_all decide)⟩

end ZWLog
